import Mathlib

/-!
Verification development for the convex-salesforce-connector repository.

The development shallowly embeds the change-event ingestion and
reconciliation pipeline of the repository:

* the generic upsert engine, CDC event processors, bulk sync and status
  query of convex/salesforce.ts;
* the credential provider and webhook signature verifier of
  convex/auth.ts;
* the CDC webhook HTTP handler of convex/http.ts.

The Convex document store is modelled as association lists of tables,
each table a list of rows carrying a numeric internal id (the `_id`
Convex assigns) together with the stored document.  Convex guarantees
internal ids are unique per table; the embedding carries this as the
well-formedness predicate `Table.WF` / `Db.WF` instead of baking it into
the representation.

The entity configuration module (convex/config.ts) is not part of the
sources; the definitions that depend on it are either modelled from the
specification (marked `Modelled from the spec:` in their doc comment) or
taken as explicit parameters (the field mapper `MapFn`), so the theorems
hold for every configuration and mapper.  One fidelity side condition is
made explicit: in the source the record literal spreads the mapped data
after the `sfId` key, so a mapper that emitted a field literally named
"sfId" would override the natural key.  The schema gives every mirror
table a dedicated `sfId` column disjoint from the mapped business
fields; theorems that quantify over the mapper therefore carry the
corresponding hypothesis `MapperNoSfId`.

JavaScript value quirks that the control flow depends on are modelled
explicitly: `parseInt` returning NaN (`jsParseInt` returning `none`),
truthiness of strings (`jsTruthyStr`, empty string falsy) and of numbers
(zero falsy, used by the `if (limit)` guard in bulkSync).
-/

/-- A JSON-style value stored in a mapped business field. -/
inductive JsVal where
  | vstr (s : String)
  | vnum (n : Int)
  | vbool (b : Bool)
  | vnull
deriving DecidableEq, Repr

/-- A JavaScript field read that can be `undefined`, `null`, or a string. -/
inductive JsNullable where
  | undef
  | null
  | val (s : String)
deriving DecidableEq, Repr

/-- Source: `const nullToUndefined = (val) => (val === null ? undefined : val)`
in convex/salesforce.ts; `none` plays the role of `undefined`. -/
def nullToUndefined : JsNullable → Option String
  | .undef => none
  | .null => none
  | .val s => some s

/-- JavaScript string truthiness: `undefined` and the empty string are falsy. -/
def jsTruthyStr : Option String → Bool
  | none => false
  | some s => s ≠ ""

/-- JavaScript `a || b` on string-valued expressions. -/
def jsOrStr (a b : Option String) : Option String :=
  if jsTruthyStr a then a else b

/-- JavaScript `parseInt(s, 10)`: skip leading whitespace, optional sign,
then the longest digit prefix; no digits means NaN, modelled as `none`. -/
def jsParseInt (s : String) : Option Int :=
  let cs := s.data.dropWhile (fun c => c.isWhitespace)
  let signAndRest : Int × List Char :=
    match cs with
    | '-' :: r => (-1, r)
    | '+' :: r => (1, r)
    | _ => (1, cs)
  let ds := signAndRest.2.takeWhile (fun c => c.isDigit)
  if ds.isEmpty then none
  else some (signAndRest.1 * (ds.foldl (fun acc c => acc * 10 + (c.toNat - 48)) 0 : Nat))

/-- The payload of one Salesforce record as delivered to the pipeline:
an association list of business fields plus the three specially accessed
members (`Id` for bulk sync rows, `CreatedDate` / `LastModifiedDate`
read by the upsert engine through `nullToUndefined`). -/
structure SfData where
  Id : String
  fields : List (String × JsVal)
  CreatedDate : JsNullable
  LastModifiedDate : JsNullable
deriving DecidableEq, Repr

/-- Modelled from the spec: one field mapping of an Entity Configuration
in convex/config.ts (file not under src/): source field name, destination
field name, declared value type, required flag, index flag. -/
structure FieldCfg where
  apiName : String
  convexName : String
  ftype : String
  required : Bool
  indexed : Bool
deriving DecidableEq, Repr

/-- Modelled from the spec: one Entity Configuration entry of
convex/config.ts (file not under src/): source entity type name,
destination table name, human label, enabled flag, field mappings. -/
structure ObjectConfig where
  apiName : String
  tableName : String
  label : String
  enabled : Bool
  fields : List FieldCfg
deriving DecidableEq, Repr

/-- Modelled from the spec: `getEnabledObjects()` of convex/config.ts
(file not under src/) — the configured entity types whose enabled flag
is set. -/
def getEnabledObjects (cfg : List ObjectConfig) : List ObjectConfig :=
  cfg.filter (fun o => o.enabled)

/-- Modelled from the spec: `getObjectByApiName(name)` of convex/config.ts
(file not under src/) — resolve an entity configuration by its source
entity type name; callers check the enabled flag themselves. -/
def getObjectByApiName (cfg : List ObjectConfig) (apiName : String) : Option ObjectConfig :=
  cfg.find? (fun o => o.apiName = apiName)

/-- Modelled from the spec: `buildFieldList(config)` of convex/config.ts
(file not under src/) — the comma separated source field list used in
the bulk sync query (only fields present in the mapping, never a
select-all). -/
def buildFieldList (oc : ObjectConfig) : String :=
  String.intercalate ", " (oc.fields.map (fun f => f.apiName))

/-- First binding of a key in the payload fields. -/
def lookupField (data : SfData) (k : String) : Option JsVal :=
  (data.fields.find? (fun p => p.1 = k)).map (fun p => p.2)

/-- Modelled from the spec: `mapRecordToDocument(config, record)` of
convex/config.ts (file not under src/) — the Field Mapper: for each
configured field mapping read the named source field from the payload,
omit it when absent, pass the value through otherwise (date, datetime
and untyped fields are passed through verbatim; required-ness is
advisory only and never throws).  Permissive numeric coercion is not
modelled; no claim depends on it. -/
def mapRecordToDocument (oc : ObjectConfig) (data : SfData) : List (String × JsVal) :=
  oc.fields.foldr
    (fun f acc =>
      match lookupField data f.apiName with
      | some v => (f.convexName, v) :: acc
      | none => acc)
    []

/-- The type of a field mapper; general theorems quantify over it since
convex/config.ts is not among the sources. -/
def MapFn : Type := ObjectConfig → SfData → List (String × JsVal)

/-- Fidelity side condition on a mapper: it never emits a field literally
named "sfId" (see the file header; guaranteed by the schema of
convex/schema.ts, where mirror tables reserve `sfId` for the natural
key). -/
def MapperNoSfId (mapRec : MapFn) : Prop :=
  ∀ oc data, ∀ p ∈ mapRec oc data, p.1 ≠ "sfId"

/-- One stored mirror document: the natural key, the mapped business
fields, and the CDC metadata block exactly as built by `upsertRecord`
in convex/salesforce.ts. -/
structure MirrorRecord where
  sfId : String
  mapped : List (String × JsVal)
  cdcChangeType : String
  cdcReplayId : Option String
  isDeleted : Bool
  syncedAt : Nat
  sfCreatedDate : Option String
  sfLastModifiedDate : Option String
deriving DecidableEq, Repr

/-- One row of a mirror table: the Convex internal id plus the document. -/
structure Row where
  id : Nat
  doc : MirrorRecord
deriving DecidableEq, Repr

/-- One mirror table: rows in creation order plus the next internal id. -/
structure Table where
  rows : List Row
  nextId : Nat
deriving DecidableEq, Repr

def emptyTable : Table := { rows := [], nextId := 0 }

/-- Internal ids are unique and below the id counter; Convex guarantees
both for the `_id` values it assigns. -/
def Table.WF (t : Table) : Prop :=
  (∀ r ∈ t.rows, r.id < t.nextId) ∧ t.rows.Pairwise (fun a b => a.id ≠ b.id)

/-- One Event Log row of the `cdcEventLog` table (convex/schema.ts),
written by `logCdcEvent` in convex/salesforce.ts. -/
structure LogEntry where
  objectType : String
  changeType : String
  recordId : String
  replayId : Option String
  success : Bool
  error : Option String
  processedAt : Nat
deriving DecidableEq, Repr

/-- The document store: mirror tables addressed by table name, plus the
append-only CDC event log. -/
structure Db where
  tables : List (String × Table)
  eventLog : List LogEntry
deriving DecidableEq, Repr

def emptyDb : Db := { tables := [], eventLog := [] }

def Db.getTable (db : Db) (n : String) : Table :=
  match db.tables.find? (fun p => p.1 = n) with
  | some p => p.2
  | none => emptyTable

def Db.setTable (db : Db) (n : String) (t : Table) : Db :=
  { db with tables := (n, t) :: db.tables.filter (fun p => p.1 ≠ n) }

def Db.WF (db : Db) : Prop :=
  ∀ p ∈ db.tables, Table.WF p.2

/-- Does an association list bind a key. -/
def containsKey (l : List (String × JsVal)) (k : String) : Bool :=
  l.any (fun p => p.1 = k)

/-- Shallow merge of mapped fields, as `ctx.db.patch` does for the
top-level document fields: every binding of `new` wins, bindings of
`old` whose key is absent from `new` persist. -/
def mergeMapped (old new : List (String × JsVal)) : List (String × JsVal) :=
  old.filter (fun p => ¬ containsKey new p.1) ++ new

/-- Effect of `ctx.db.patch(existing._id, record)` on one document: the
record built by `upsertRecord` carries every metadata field (an absent
`cdcReplayId` patches the field away, matching Convex undefined
semantics), so the metadata block is replaced wholesale while the mapped
business fields merge shallowly. -/
def patchRecord (old new : MirrorRecord) : MirrorRecord :=
  { new with mapped := mergeMapped old.mapped new.mapped }

/-- Result value of the `upsertRecord` mutation. -/
structure UpsertOk where
  action : String
  id : Nat
deriving DecidableEq, Repr

/-- Source: the `upsertRecord` internal mutation of convex/salesforce.ts.
Resolves the table among the enabled configurations (throwing, i.e.
returning `Except.error`, on an unknown table), maps the payload, builds
the full record with the CDC metadata block, then looks up the existing
row by `sfId` and either patches it in place or inserts a new row. -/
def upsertRecord (cfg : List ObjectConfig) (mapRec : MapFn) (now : Nat)
    (tableName sfId changeType : String) (replayId : Option String) (data : SfData)
    (db : Db) : Except String (UpsertOk × Db) :=
  let isDelete := changeType = "DELETE"
  match (getEnabledObjects cfg).find? (fun o => o.tableName = tableName) with
  | none => .error ("Unknown table: " ++ tableName)
  | some objConfig =>
    let mappedData := mapRec objConfig data
    let record : MirrorRecord :=
      { sfId := sfId
        mapped := mappedData
        cdcChangeType := changeType
        cdcReplayId := replayId
        isDeleted := isDelete
        syncedAt := now
        sfCreatedDate := nullToUndefined data.CreatedDate
        sfLastModifiedDate := nullToUndefined data.LastModifiedDate }
    let t := db.getTable tableName
    match t.rows.find? (fun r => r.doc.sfId = sfId) with
    | some existing =>
      let t' : Table :=
        { t with rows := t.rows.map (fun r => if r.id = existing.id then { r with doc := patchRecord r.doc record } else r) }
      .ok ({ action := "updated", id := existing.id }, db.setTable tableName t')
    | none =>
      let t' : Table := { rows := t.rows ++ [{ id := t.nextId, doc := record }], nextId := t.nextId + 1 }
      .ok ({ action := "created", id := t.nextId }, db.setTable tableName t')

/-- Number of rows of a table holding a given natural key. -/
def rowsFor (db : Db) (tableName sfId : String) : Nat :=
  ((db.getTable tableName).rows.filter (fun r => r.doc.sfId = sfId)).length

/-- One application of `upsertRecord` inside an event sequence: the
change type, replay id, payload and the wall clock reading of that call. -/
structure EvApp where
  changeType : String
  replayId : Option String
  data : SfData
  now : Nat
deriving DecidableEq, Repr

/-- Sequential application of `upsertRecord` calls sharing one
(tableName, sfId) pair; a call that throws leaves the store untouched,
exactly as a failed Convex mutation does. -/
def runUpserts (cfg : List ObjectConfig) (mapRec : MapFn) (tableName sfId : String) :
    List EvApp → Db → Db
  | [], db => db
  | e :: es, db =>
    match upsertRecord cfg mapRec e.now tableName sfId e.changeType e.replayId e.data db with
    | .ok (_, db') => runUpserts cfg mapRec tableName sfId es db'
    | .error _ => runUpserts cfg mapRec tableName sfId es db

/-- The table name resolves among the enabled configurations. -/
def isEnabledTable (cfg : List ObjectConfig) (tableName : String) : Bool :=
  ((getEnabledObjects cfg).find? (fun o => o.tableName = tableName)).isSome

/-- Argument record of one CDC event as passed to the processors. -/
structure EventArgs where
  objectType : String
  changeType : String
  recordId : String
  replayId : Option String
  changedFields : Option (List String)
  data : SfData
deriving DecidableEq, Repr

/-- Return value of the `processCdcEvent` action. -/
structure ProcResult where
  success : Bool
  action : Option String
  id : Option Nat
  error : Option String
deriving DecidableEq, Repr

/-- Source: the `logCdcEvent` internal mutation of convex/salesforce.ts —
append one row to the `cdcEventLog` table. -/
def logCdcEvent (db : Db) (objectType changeType recordId : String)
    (replayId : Option String) (success : Bool) (error : Option String) (now : Nat) : Db :=
  { db with eventLog := db.eventLog ++
      [{ objectType := objectType, changeType := changeType, recordId := recordId,
         replayId := replayId, success := success, error := error, processedAt := now }] }

/-- Source: the `processCdcEvent` internal action of convex/salesforce.ts.
An unconfigured or disabled entity type returns a failure WITHOUT
touching the store or the event log; otherwise the upsert runs and
exactly one event log row records success or failure (a throwing upsert
mutation leaves the mirror table untouched). -/
def processCdcEvent (cfg : List ObjectConfig) (mapRec : MapFn) (now : Nat)
    (e : EventArgs) (db : Db) : ProcResult × Db :=
  let bad : ProcResult × Db :=
    ({ success := false, action := none, id := none,
       error := some ("Object type not configured: " ++ e.objectType) }, db)
  match getObjectByApiName cfg e.objectType with
  | none => bad
  | some objConfig =>
    if ¬ objConfig.enabled then bad
    else
      match upsertRecord cfg mapRec now objConfig.tableName e.recordId e.changeType e.replayId e.data db with
      | .ok (res, db') =>
        ({ success := true, action := some res.action, id := some res.id, error := none },
         logCdcEvent db' e.objectType e.changeType e.recordId e.replayId true none now)
      | .error msg =>
        ({ success := false, action := none, id := none, error := some msg },
         logCdcEvent db e.objectType e.changeType e.recordId e.replayId false (some msg) now)

/-- Return value of the `processCdcBatch` action. -/
structure BatchResult where
  processed : Nat
  succeeded : Nat
  failed : Nat
deriving DecidableEq, Repr

/-- The loop body of `processCdcBatch` over the remaining events,
accumulating the succeeded and failed tallies. -/
def processCdcBatchAux (cfg : List ObjectConfig) (mapRec : MapFn) (now : Nat) :
    List EventArgs → Db → Nat → Nat → Nat × Nat × Db
  | [], db, succeeded, failed => (succeeded, failed, db)
  | e :: es, db, succeeded, failed =>
    match getObjectByApiName cfg e.objectType with
    | none => processCdcBatchAux cfg mapRec now es db succeeded (failed + 1)
    | some objConfig =>
      if ¬ objConfig.enabled then
        processCdcBatchAux cfg mapRec now es db succeeded (failed + 1)
      else
        match upsertRecord cfg mapRec now objConfig.tableName e.recordId e.changeType e.replayId e.data db with
        | .ok (_, db') => processCdcBatchAux cfg mapRec now es db' (succeeded + 1) failed
        | .error _ => processCdcBatchAux cfg mapRec now es db succeeded (failed + 1)

/-- Source: the `processCdcBatch` internal action of convex/salesforce.ts.
Every event is handled independently: an unconfigured or disabled entity
type only bumps the failed tally (the upsert engine is not invoked), a
throwing upsert is caught and bumps the failed tally, every other event
is applied and bumps the succeeded tally.  Note the loop never calls
`logCdcEvent`: the event log component of the store passes through
untouched. -/
def processCdcBatch (cfg : List ObjectConfig) (mapRec : MapFn) (now : Nat)
    (events : List EventArgs) (db : Db) : BatchResult × Db :=
  let r := processCdcBatchAux cfg mapRec now events db 0 0
  ({ processed := events.length, succeeded := r.1, failed := r.2.1 }, r.2.2)

/-- Per-entity-type counters returned by `getSyncStats`. -/
structure SyncStat where
  total : Nat
  active : Nat
  deleted : Nat
deriving DecidableEq, Repr

/-- Source: the `getSyncStats` query of convex/salesforce.ts — for each
enabled entity configuration, collect the mirror table and count all
rows, the rows whose deletion flag is clear, and the rows whose deletion
flag is set. -/
def getSyncStats (cfg : List ObjectConfig) (db : Db) : List (String × SyncStat) :=
  (getEnabledObjects cfg).map (fun obj =>
    let records := (db.getTable obj.tableName).rows
    (obj.apiName,
     { total := records.length
       active := (records.filter (fun r => ¬ r.doc.isDeleted)).length
       deleted := (records.filter (fun r => r.doc.isDeleted)).length }))

/-- The static environment credentials SALESFORCE_INSTANCE_URL and
SALESFORCE_ACCESS_TOKEN; `none` models an unset variable. -/
structure EnvCreds where
  instanceUrl : Option String
  accessToken : Option String
deriving DecidableEq, Repr

/-- The stored OAuth token singleton (one row of the sfAuthTokens
table). -/
structure StoredToken where
  accessToken : String
  refreshToken : String
  instanceUrl : String
  expiresAt : Nat
  createdAt : Nat
deriving DecidableEq, Repr

/-- Outcome of a successful token refresh round trip. -/
structure Refreshed where
  accessToken : String
  expiresIn : Nat
deriving DecidableEq, Repr

/-- Credentials returned by `getCredentials`. -/
structure Creds where
  accessToken : String
  instanceUrl : String
deriving DecidableEq, Repr

/-- Token expiry buffer of convex/auth.ts: refresh 5 minutes before
expiry. -/
def EXPIRY_BUFFER_MS : Nat := 5 * 60 * 1000

/-- Source: the `getCredentials` internal action of convex/auth.ts.  The
network bound `refreshAccessToken` helper is a parameter `refresh`
(returning `none` both when the refresh round trip fails and when the
OAuth client credentials are unset, exactly the cases in which the
source helper returns null).  The result carries the credentials, the
stored token singleton after the call, and whether a refresh was
attempted (the only network activity of the function). -/
def getCredentials (stored : Option StoredToken)
    (refresh : String → String → Option Refreshed)
    (env : EnvCreds) (now : Nat) :
    Except String (Creds × Option StoredToken × Bool) :=
  let fallback : Option StoredToken → Bool → Except String (Creds × Option StoredToken × Bool) :=
    fun st attempted =>
      if jsTruthyStr env.accessToken ∧ jsTruthyStr env.instanceUrl then
        .ok ({ accessToken := env.accessToken.getD "", instanceUrl := env.instanceUrl.getD "" },
             st, attempted)
      else
        .error "Salesforce credentials not configured. Run 'npm run setup' or set environment variables."
  match stored with
  | some st =>
    if st.expiresAt > now + EXPIRY_BUFFER_MS then
      .ok ({ accessToken := st.accessToken, instanceUrl := st.instanceUrl }, stored, false)
    else if st.refreshToken ≠ "" then
      match refresh st.refreshToken st.instanceUrl with
      | some refreshed =>
        let newStored : StoredToken :=
          { accessToken := refreshed.accessToken
            refreshToken := st.refreshToken
            instanceUrl := st.instanceUrl
            expiresAt := now + refreshed.expiresIn * 1000
            createdAt := now }
        .ok ({ accessToken := refreshed.accessToken, instanceUrl := st.instanceUrl },
             some newStored, true)
      | none => fallback stored true
    else fallback stored false
  | none => fallback none false

/-- Result of the webhook signature verifier. -/
structure VerifyResult where
  valid : Bool
  error : Option String
deriving DecidableEq, Repr

/-- Source: `verifyWebhookSignature(payload, signature, timestamp)` of
convex/auth.ts.  The HMAC-SHA256 hex digest computation is the abstract
parameter `hmac` (secret, message to digest); everything else follows
the source: a missing secret skips verification, missing headers are
invalid, a timestamp whose `parseInt` value lies more than 5 minutes
from the clock is invalid (a NaN parse makes the `Math.abs` comparison
false, so such a timestamp falls through to the signature comparison),
and finally the provided signature is string compared against the digest
of timestamp, a dot, and the raw payload. -/
def verifyWebhookSignature (secret : Option String) (hmac : String → String → String)
    (now : Int) (payload : String) (signature timestamp : Option String) : VerifyResult :=
  match secret with
  | none => { valid := true, error := none }
  | some sec =>
    match signature with
    | none => { valid := false, error := some "Missing X-Convex-Signature header" }
    | some sig =>
      match timestamp with
      | none => { valid := false, error := some "Missing X-Convex-Timestamp header" }
      | some ts =>
        let tooOld : Bool :=
          match jsParseInt ts with
          | some tsMs => (now - tsMs).natAbs > 5 * 60 * 1000
          | none => false
        if tooOld then { valid := false, error := some "Request timestamp too old" }
        else
          let expectedSignature := hmac sec (ts ++ "." ++ payload)
          if sig ≠ expectedSignature then { valid := false, error := some "Invalid signature" }
          else { valid := true, error := none }

/-- The outbound query request of `bulkSync`: URL and bearer token of the
Authorization header. -/
structure BulkReq where
  url : String
  bearer : String
deriving DecidableEq, Repr

/-- Outcome of the outbound query call of `bulkSync`: a non-2xx response
with its body text, a thrown network error, or a parsed record list (the
`data.records || []` read). -/
inductive FetchOutcome where
  | httpError (body : String)
  | netError (msg : String)
  | ok (records : List SfData)
deriving DecidableEq, Repr

/-- Return value of the `bulkSync` action. -/
structure BulkRes where
  success : Bool
  synced : Nat
  error : Option String
deriving DecidableEq, Repr

/-- The record loop of `bulkSync`: upsert every returned row with change
type "SYNC" and no replay id, counting successes and skipping rows whose
upsert throws. -/
def bulkSyncLoop (cfg : List ObjectConfig) (mapRec : MapFn) (now : Nat) (tableName : String) :
    List SfData → Db → Nat → Nat × Db
  | [], db, synced => (synced, db)
  | record :: rest, db, synced =>
    match upsertRecord cfg mapRec now tableName record.Id "SYNC" none record db with
    | .ok (_, db') => bulkSyncLoop cfg mapRec now tableName rest db' (synced + 1)
    | .error _ => bulkSyncLoop cfg mapRec now tableName rest db synced

/-- Source: the `bulkSync` action of convex/salesforce.ts.  The entity
configuration is resolved by source type name and must be enabled; the
instance URL and access token are read DIRECTLY from the static
environment (the function never consults the stored OAuth token), and
when either is unset (or empty, JavaScript falsiness) the action fails
with "Missing Salesforce credentials" without issuing any request.  The
`encode` parameter models encodeURIComponent and `fetch` the outbound
HTTP call; the result carries the action value, the store after the
call, and the request that was issued, if any.  Note the JavaScript
`if (limit)` guard: a limit of zero is falsy and adds no LIMIT clause. -/
def bulkSync (cfg : List ObjectConfig) (mapRec : MapFn) (now : Nat)
    (objectType : String) (limit : Option Nat) (env : EnvCreds)
    (encode : String → String) (fetch : BulkReq → FetchOutcome)
    (db : Db) : BulkRes × Db × Option BulkReq :=
  match getObjectByApiName cfg objectType with
  | none => ({ success := false, synced := 0, error := some ("Object not configured: " ++ objectType) }, db, none)
  | some objConfig =>
    if ¬ objConfig.enabled then
      ({ success := false, synced := 0, error := some ("Object not configured: " ++ objectType) }, db, none)
    else if ¬ (jsTruthyStr env.instanceUrl ∧ jsTruthyStr env.accessToken) then
      ({ success := false, synced := 0, error := some "Missing Salesforce credentials" }, db, none)
    else
      let instanceUrl := env.instanceUrl.getD ""
      let accessToken := env.accessToken.getD ""
      let fieldList := buildFieldList objConfig
      let baseQuery := "SELECT " ++ fieldList ++ " FROM " ++ objectType
      let soql :=
        match limit with
        | some l => if l = 0 then baseQuery else baseQuery ++ " LIMIT " ++ toString l
        | none => baseQuery
      let req : BulkReq :=
        { url := instanceUrl ++ "/services/data/v59.0/query?q=" ++ encode soql
          bearer := accessToken }
      match fetch req with
      | .httpError body =>
        ({ success := false, synced := 0, error := some ("Query failed: " ++ body) }, db, some req)
      | .netError msg =>
        ({ success := false, synced := 0, error := some msg }, db, some req)
      | .ok records =>
        let r := bulkSyncLoop cfg mapRec now objConfig.tableName records db 0
        ({ success := true, synced := r.1, error := none }, r.2, some req)

/-- The `ChangeEventHeader` sub-object of a native-shape CDC event, as
read by the field extraction of the webhook handler. -/
structure CdcHeader where
  entityName : Option String
  changeType : Option String
  recordIds : List String
  replayId : Option String
  changedFields : Option (List String)
deriving DecidableEq, Repr

/-- One event object of the webhook body, carrying both the flattened
fields and the optional native header; `asData` is the event object
itself viewed as the upsert payload (the `event.data || event`
fallback). -/
structure RawEvent where
  objectType : Option String
  changeType : Option String
  recordId : Option String
  replayId : Option String
  changedFields : Option (List String)
  dataField : Option SfData
  header : Option CdcHeader
  asData : SfData
deriving DecidableEq, Repr

/-- The parsed JSON body of a webhook call: either an object with an
`events` array, or a single event object. -/
inductive ParsedBody where
  | withEvents (events : List RawEvent)
  | single (e : RawEvent)
deriving DecidableEq, Repr

/-- The argument record the handler schedules `processCdcEvent` with:
each field prefers the flattened shape and falls back to the native
header (JavaScript `||`, so an empty flattened string also falls back);
the payload prefers the `data` member and falls back to the event object
itself. -/
structure ScheduledArgs where
  objectType : Option String
  changeType : Option String
  recordId : Option String
  replayId : Option String
  changedFields : Option (List String)
  data : SfData
deriving DecidableEq, Repr

def extractArgs (e : RawEvent) : ScheduledArgs :=
  { objectType := jsOrStr e.objectType (e.header.bind (fun h => h.entityName))
    changeType := jsOrStr e.changeType (e.header.bind (fun h => h.changeType))
    recordId := jsOrStr e.recordId (e.header.bind (fun h => h.recordIds.head?))
    replayId := jsOrStr e.replayId (e.header.bind (fun h => h.replayId))
    changedFields := e.changedFields.orElse (fun _ => e.header.bind (fun h => h.changedFields))
    data := e.dataField.getD e.asData }

/-- A unit of work the handler schedules (`ctx.scheduler.runAfter`):
either one batch processing run or one single event run.  All mirror
store mutations and event log writes of the webhook path happen inside
these scheduled runs, never in the handler itself. -/
inductive Job where
  | batch (events : List RawEvent)
  | single (args : ScheduledArgs)
deriving DecidableEq, Repr

/-- The HTTP response of the webhook handler, with the JSON body
summarized structurally. -/
inductive WebhookResp where
  | emptyOk
  | queued (n : Nat)
  | unauthorized (reason : Option String)
  | serverError (msg : String)
deriving DecidableEq, Repr

def WebhookResp.status : WebhookResp → Nat
  | .emptyOk => 200
  | .queued _ => 200
  | .unauthorized _ => 401
  | .serverError _ => 500

/-- Source: the POST /webhooks/salesforce/cdc handler of convex/http.ts
(the version with signature verification).  The raw body is read as
text, the signature is verified first, and only then is the body parsed
(the `parse` parameter models `JSON.parse`, whose throw the handler
catches into a 500 response); an empty events array responds success
with zero processed, several events schedule one batch job, a single
event schedules one single-event job. -/
def cdcWebhookHandler (secret : Option String) (hmac : String → String → String)
    (now : Int) (rawBody : String) (signature timestamp : Option String)
    (parse : String → Except String ParsedBody) : WebhookResp × List Job :=
  let verification := verifyWebhookSignature secret hmac now rawBody signature timestamp
  if ¬ verification.valid then
    (.unauthorized verification.error, [])
  else
    match parse rawBody with
    | .error msg => (.serverError msg, [])
    | .ok body =>
      let events : List RawEvent :=
        match body with
        | .withEvents l => l
        | .single e => [e]
      match events with
      | [] => (.emptyOk, [])
      | [e] => (.queued 1, [Job.single (extractArgs e)])
      | es => (.queued es.length, [Job.batch es])

/-- The full record `upsertRecord` builds before writing: mapped fields
plus the CDC metadata block.  Named so lemmas can speak about the written
document; definitionally the record constructed inside `upsertRecord`. -/
def builtRecord (mapRec : MapFn) (oc : ObjectConfig) (now : Nat)
    (sfId ct : String) (rid : Option String) (data : SfData) : MirrorRecord :=
  { sfId := sfId
    mapped := mapRec oc data
    cdcChangeType := ct
    cdcReplayId := rid
    isDeleted := decide (ct = "DELETE")
    syncedAt := now
    sfCreatedDate := nullToUndefined data.CreatedDate
    sfLastModifiedDate := nullToUndefined data.LastModifiedDate }

/-- An event whose entity type does not resolve to an enabled
configuration — the per-event failure condition of the processors that
skips the upsert engine. -/
def eventUnconfigured (cfg : List ObjectConfig) (e : EventArgs) : Bool :=
  match getObjectByApiName cfg e.objectType with
  | none => true
  | some oc => ¬ oc.enabled

/-! ## Concrete sample data for witnesses and counterexamples -/

/-- A trivial mapper used to instantiate general theorems. -/
def emptyMapper : MapFn := fun _ _ => []

/-- Sample payload carrying one business field. -/
def sampleData (s : String) : SfData :=
  { Id := s
    fields := [("LastName", JsVal.vstr "Doe")]
    CreatedDate := JsNullable.undef
    LastModifiedDate := JsNullable.undef }

/-- Sample enabled Contact configuration. -/
def contactCfg : ObjectConfig :=
  { apiName := "Contact"
    tableName := "sfContacts"
    label := "Contacts"
    enabled := true
    fields := [{ apiName := "LastName", convexName := "lastName", ftype := "string",
                 required := true, indexed := false }] }

/-- Sample disabled configuration. -/
def brokenCfg : ObjectConfig :=
  { apiName := "Broken"
    tableName := "sfBroken"
    label := "Broken"
    enabled := false
    fields := [] }

def sampleCfg : List ObjectConfig := [contactCfg, brokenCfg]

/-- Sample CDC event for the given entity type and record id. -/
def mkEvent (objectType recordId : String) : EventArgs :=
  { objectType := objectType
    changeType := "UPDATE"
    recordId := recordId
    replayId := none
    changedFields := none
    data := sampleData recordId }

/-- Five events of which the third names the disabled entity type. -/
def fiveEvents : List EventArgs :=
  [mkEvent "Contact" "003A", mkEvent "Contact" "003B", mkEvent "Broken" "003C",
   mkEvent "Contact" "003D", mkEvent "Contact" "003E"]

/-- A stored OAuth token far from expiry. -/
def tokFresh : StoredToken :=
  { accessToken := "storedAT", refreshToken := "rt", instanceUrl := "https://stored.example",
    expiresAt := 999999999, createdAt := 0 }

/-- A stored OAuth token already expired. -/
def tokStale : StoredToken :=
  { accessToken := "oldAT", refreshToken := "rt", instanceUrl := "https://stored.example",
    expiresAt := 0, createdAt := 0 }

/-- Unset static environment credentials. -/
def noEnv : EnvCreds := { instanceUrl := none, accessToken := none }

/-! ## Helper lemmas about the store model -/

lemma pairwise_id_unique {l : List Row} (h : l.Pairwise (fun a b => a.id ≠ b.id)) :
    ∀ a ∈ l, ∀ b ∈ l, a.id = b.id → a = b := by
  induction l with
  | nil => intro a ha; cases ha
  | cons x xs ih =>
    rcases List.pairwise_cons.mp h with ⟨hx, hxs⟩
    intro a ha b hb hab
    rcases List.mem_cons.mp ha with rfl | ha' <;> rcases List.mem_cons.mp hb with rfl | hb'
    · rfl
    · exact absurd hab (hx b hb')
    · exact absurd hab.symm (hx a ha')
    · exact ih hxs a ha' b hb' hab

lemma getTable_setTable (db : Db) (n : String) (t : Table) :
    (db.setTable n t).getTable n = t := by
  simp [Db.setTable, Db.getTable]

lemma eventLog_setTable (db : Db) (n : String) (t : Table) :
    (db.setTable n t).eventLog = db.eventLog := rfl

lemma setTable_setTable (db : Db) (n : String) (t t' : Table) :
    (db.setTable n t).setTable n t' = db.setTable n t' := by
  simp only [Db.setTable]
  congr 1
  rw [List.filter_cons]
  simp

lemma getTable_wf {db : Db} (hwf : Db.WF db) (n : String) : Table.WF (db.getTable n) := by
  unfold Db.getTable
  cases hfind : db.tables.find? (fun p => p.1 = n) with
  | none =>
    refine ⟨?_, ?_⟩
    · intro r hr
      simp [emptyTable] at hr
    · simp only [emptyTable]
      exact List.Pairwise.nil
  | some p => exact hwf p (List.mem_of_find?_eq_some hfind)

lemma setTable_wf {db : Db} {t : Table} (hwf : Db.WF db) (ht : Table.WF t) (n : String) :
    Db.WF (db.setTable n t) := by
  intro p hp
  rcases List.mem_cons.mp hp with rfl | hp'
  · exact ht
  · exact hwf p (List.mem_of_mem_filter hp')

lemma mergeMapped_self (m : List (String × JsVal)) : mergeMapped m m = m := by
  unfold mergeMapped
  have : m.filter (fun p => ¬ containsKey m p.1) = [] := by
    rw [List.filter_eq_nil_iff]
    intro p hp
    have hc : containsKey m p.1 = true :=
      List.any_eq_true.mpr ⟨p, hp, by simp⟩
    simp [hc]
  rw [this, List.nil_append]

lemma patchRecord_self (r : MirrorRecord) : patchRecord r r = r := by
  unfold patchRecord
  rw [mergeMapped_self]

lemma find?_map_upd (p : Row → Bool) (g : Row → Row) (e : Row) :
    ∀ {rows : List Row}, rows.Pairwise (fun a b => a.id ≠ b.id) →
      rows.find? p = some e → (∀ r, r.id ≠ e.id → g r = r) → p (g e) = true →
      (rows.map g).find? p = some (g e) := by
  intro rows
  induction rows with
  | nil => intro _ h; cases h
  | cons x xs ih =>
    intro hpair hfind hg hpe
    rcases List.pairwise_cons.mp hpair with ⟨hx, hxs⟩
    by_cases hpx : p x
    · rw [List.find?_cons_of_pos _ hpx] at hfind
      cases hfind
      rw [List.map_cons, List.find?_cons_of_pos _ hpe]
    · rw [List.find?_cons_of_neg _ hpx] at hfind
      have hmem := List.mem_of_find?_eq_some hfind
      have hxid : x.id ≠ e.id := hx e hmem
      have hgx : g x = x := hg x hxid
      rw [List.map_cons, hgx, List.find?_cons_of_neg _ hpx]
      exact ih hxs hfind hg hpe

/-- Case analysis of a successful `upsertRecord` call: the enabled
configuration resolved, and the store either patched the first row
holding the natural key or inserted a fresh row with the built record. -/
lemma upsert_ok_cases {cfg : List ObjectConfig} {mapRec : MapFn} {now : Nat}
    {tableName sfId ct : String} {rid : Option String} {data : SfData}
    {db : Db} {res : UpsertOk} {db' : Db}
    (h : upsertRecord cfg mapRec now tableName sfId ct rid data db = .ok (res, db')) :
    ∃ oc, (getEnabledObjects cfg).find? (fun o => o.tableName = tableName) = some oc ∧
      ((∃ e, (db.getTable tableName).rows.find? (fun r => r.doc.sfId = sfId) = some e ∧
          res = { action := "updated", id := e.id } ∧
          db' = db.setTable tableName
            { db.getTable tableName with
              rows := (db.getTable tableName).rows.map
                (fun r => if r.id = e.id then
                    { r with doc := patchRecord r.doc (builtRecord mapRec oc now sfId ct rid data) }
                  else r) })
       ∨ ((db.getTable tableName).rows.find? (fun r => r.doc.sfId = sfId) = none ∧
          res = { action := "created", id := (db.getTable tableName).nextId } ∧
          db' = db.setTable tableName
            { rows := (db.getTable tableName).rows ++
                [{ id := (db.getTable tableName).nextId,
                   doc := builtRecord mapRec oc now sfId ct rid data }],
              nextId := (db.getTable tableName).nextId + 1 })) := by
  cases hoc : (getEnabledObjects cfg).find? (fun o => o.tableName = tableName) with
  | none =>
    simp only [upsertRecord, hoc] at h
    exact absurd h (by simp)
  | some oc =>
    simp only [upsertRecord, hoc] at h
    refine ⟨oc, rfl, ?_⟩
    cases hfind : (db.getTable tableName).rows.find? (fun r => r.doc.sfId = sfId) with
    | some e =>
      rw [hfind] at h
      rw [Except.ok.injEq, Prod.mk.injEq] at h
      exact Or.inl ⟨e, rfl, h.1.symm, h.2.symm⟩
    | none =>
      rw [hfind] at h
      rw [Except.ok.injEq, Prod.mk.injEq] at h
      exact Or.inr ⟨rfl, h.1.symm, h.2.symm⟩

/-- A table name resolving among the enabled configurations makes
`upsertRecord` succeed. -/
lemma upsert_ok_of_enabled {cfg : List ObjectConfig} (mapRec : MapFn) (now : Nat)
    {tableName : String} (sfId ct : String) (rid : Option String) (data : SfData) (db : Db)
    (h : isEnabledTable cfg tableName = true) :
    ∃ res db', upsertRecord cfg mapRec now tableName sfId ct rid data db = .ok (res, db') := by
  unfold isEnabledTable at h
  rcases Option.isSome_iff_exists.mp h with ⟨oc, hoc⟩
  simp only [upsertRecord, hoc]
  cases hfind : (db.getTable tableName).rows.find? (fun r => r.doc.sfId = sfId) with
  | some e => exact ⟨_, _, rfl⟩
  | none => exact ⟨_, _, rfl⟩

/-- A successful upsert never touches the event log. -/
lemma eventLog_after_upsert {cfg : List ObjectConfig} {mapRec : MapFn} {now : Nat}
    {tableName sfId ct : String} {rid : Option String} {data : SfData}
    {db : Db} {res : UpsertOk} {db' : Db}
    (h : upsertRecord cfg mapRec now tableName sfId ct rid data db = .ok (res, db')) :
    db'.eventLog = db.eventLog := by
  rcases upsert_ok_cases h with ⟨oc, hoc, ⟨e, hfind, hres, hdb⟩ | ⟨hfind, hres, hdb⟩⟩
  · rw [hdb]; rfl
  · rw [hdb]; rfl

/-- After a successful upsert the lookup by natural key finds a row whose
id is the returned id and whose CDC metadata block is the one just
written. -/
lemma find?_after_upsert {cfg : List ObjectConfig} {mapRec : MapFn} {now : Nat}
    {tableName sfId ct : String} {rid : Option String} {data : SfData}
    {db : Db} {res : UpsertOk} {db' : Db}
    (hwf : Table.WF (db.getTable tableName))
    (h : upsertRecord cfg mapRec now tableName sfId ct rid data db = .ok (res, db')) :
    ∃ r : Row, (db'.getTable tableName).rows.find? (fun r => r.doc.sfId = sfId) = some r ∧
      r.id = res.id ∧ r.doc.sfId = sfId ∧ r.doc.cdcChangeType = ct ∧
      r.doc.isDeleted = decide (ct = "DELETE") ∧ r.doc.cdcReplayId = rid ∧
      r.doc.syncedAt = now := by
  rcases upsert_ok_cases h with ⟨oc, hoc, ⟨e, hfind, hres, hdb⟩ | ⟨hfind, hres, hdb⟩⟩
  · subst hdb
    subst hres
    rw [getTable_setTable]
    have hmap := find?_map_upd (fun r => decide (r.doc.sfId = sfId))
      (fun r => if r.id = e.id then
          { r with doc := patchRecord r.doc (builtRecord mapRec oc now sfId ct rid data) }
        else r)
      e hwf.2 hfind
      (fun r hr => by simp [hr])
      (by simp [patchRecord, builtRecord])
    refine ⟨_, hmap, ?_, ?_, ?_, ?_, ?_, ?_⟩ <;>
      simp [patchRecord, builtRecord]
  · subst hdb
    subst hres
    rw [getTable_setTable]
    refine ⟨{ id := (db.getTable tableName).nextId,
              doc := builtRecord mapRec oc now sfId ct rid data },
            ?_, rfl, ?_, ?_, ?_, ?_, ?_⟩
    · simp only [List.find?_append, hfind, Option.none_or]
      exact List.find?_cons_of_pos _ (by simp [builtRecord])
    · simp [builtRecord]
    · simp [builtRecord]
    · simp [builtRecord]
    · simp [builtRecord]
    · simp [builtRecord]

/-- A successful upsert creates the row when the natural key was absent
and otherwise preserves the number of rows holding the key. -/
lemma rowsFor_after_upsert {cfg : List ObjectConfig} {mapRec : MapFn} {now : Nat}
    {tableName sfId ct : String} {rid : Option String} {data : SfData}
    {db : Db} {res : UpsertOk} {db' : Db}
    (hwf : Table.WF (db.getTable tableName))
    (h : upsertRecord cfg mapRec now tableName sfId ct rid data db = .ok (res, db')) :
    rowsFor db' tableName sfId =
      if rowsFor db tableName sfId = 0 then 1 else rowsFor db tableName sfId := by
  rcases upsert_ok_cases h with ⟨oc, hoc, ⟨e, hfind, hres, hdb⟩ | ⟨hfind, hres, hdb⟩⟩
  · subst hdb
    have hmem := List.mem_of_find?_eq_some hfind
    have hpe := List.find?_some hfind
    have hpos : rowsFor db tableName sfId ≠ 0 := by
      unfold rowsFor
      intro h0
      rw [List.length_eq_zero, List.filter_eq_nil_iff] at h0
      exact h0 e hmem hpe
    rw [if_neg hpos]
    unfold rowsFor
    rw [getTable_setTable]
    rw [← List.countP_eq_length_filter, ← List.countP_eq_length_filter]
    simp only [List.countP_map]
    apply List.countP_congr
    intro r hr
    by_cases hid : r.id = e.id
    · have hre : r = e := pairwise_id_unique hwf.2 r hr e hmem hid
      subst hre
      simp only [Function.comp_apply, if_pos hid]
      simp [patchRecord, builtRecord, hpe]
    · simp only [Function.comp_apply, if_neg hid]
  · subst hdb
    have h0 : rowsFor db tableName sfId = 0 := by
      unfold rowsFor
      rw [List.length_eq_zero, List.filter_eq_nil_iff]
      intro r hr
      rw [List.find?_eq_none] at hfind
      exact hfind r hr
    rw [h0, if_pos rfl]
    unfold rowsFor
    rw [getTable_setTable]
    simp only [List.filter_append]
    have hnil : (db.getTable tableName).rows.filter (fun r => r.doc.sfId = sfId) = [] := by
      rw [List.filter_eq_nil_iff]
      intro r hr
      rw [List.find?_eq_none] at hfind
      exact hfind r hr
    rw [hnil]
    simp [builtRecord]

/-- A successful upsert preserves store well-formedness. -/
lemma wf_after_upsert {cfg : List ObjectConfig} {mapRec : MapFn} {now : Nat}
    {tableName sfId ct : String} {rid : Option String} {data : SfData}
    {db : Db} {res : UpsertOk} {db' : Db}
    (hwf : Db.WF db)
    (h : upsertRecord cfg mapRec now tableName sfId ct rid data db = .ok (res, db')) :
    Db.WF db' := by
  have htwf : Table.WF (db.getTable tableName) := getTable_wf hwf tableName
  rcases upsert_ok_cases h with ⟨oc, hoc, ⟨e, hfind, hres, hdb⟩ | ⟨hfind, hres, hdb⟩⟩
  · subst hdb
    have hgid : ∀ r : Row,
        (if r.id = e.id then
            { r with doc := patchRecord r.doc (builtRecord mapRec oc now sfId ct rid data) }
          else r).id = r.id := by
      intro r
      by_cases hid : r.id = e.id
      · rw [if_pos hid]
      · rw [if_neg hid]
    refine setTable_wf hwf ⟨?_, ?_⟩ tableName
    · intro r hr
      rcases List.mem_map.mp hr with ⟨a, ha, rfl⟩
      rw [hgid]
      exact htwf.1 a ha
    · rw [List.pairwise_map]
      refine List.Pairwise.imp_of_mem ?_ htwf.2
      intro a b ha hb hab
      rw [hgid, hgid]
      exact hab
  · subst hdb
    refine setTable_wf hwf ⟨?_, ?_⟩ tableName
    · intro r hr
      rcases List.mem_append.mp hr with hr' | hr'
      · exact Nat.lt_succ_of_lt (htwf.1 r hr')
      · rcases List.mem_singleton.mp hr' with rfl
        exact Nat.lt_succ_self _
    · rw [List.pairwise_append]
      refine ⟨htwf.2, List.pairwise_singleton _ _, ?_⟩
      intro a ha b hb
      rcases List.mem_singleton.mp hb with rfl
      exact Nat.ne_of_lt (htwf.1 a ha)

/-- A successful upsert never physically removes a row: every internal
id present before is present after. -/
lemma ids_after_upsert {cfg : List ObjectConfig} {mapRec : MapFn} {now : Nat}
    {tableName sfId ct : String} {rid : Option String} {data : SfData}
    {db : Db} {res : UpsertOk} {db' : Db}
    (h : upsertRecord cfg mapRec now tableName sfId ct rid data db = .ok (res, db')) :
    ∀ r ∈ (db.getTable tableName).rows,
      ∃ r' ∈ (db'.getTable tableName).rows, r'.id = r.id := by
  rcases upsert_ok_cases h with ⟨oc, hoc, ⟨e, hfind, hres, hdb⟩ | ⟨hfind, hres, hdb⟩⟩
  · subst hdb
    intro r hr
    rw [getTable_setTable]
    by_cases hid : r.id = e.id
    · exact ⟨{ r with doc := patchRecord r.doc (builtRecord mapRec oc now sfId ct rid data) },
        List.mem_map.mpr ⟨r, hr, by rw [if_pos hid]⟩, rfl⟩
    · exact ⟨r, List.mem_map.mpr ⟨r, hr, by rw [if_neg hid]⟩, rfl⟩
  · subst hdb
    intro r hr
    rw [getTable_setTable]
    exact ⟨r, List.mem_append_left _ hr, rfl⟩

/-- A successful upsert with a given change type preserves the existence
of a row carrying any natural key together with that change type. -/
lemma exists_row_preserved {cfg : List ObjectConfig} {mapRec : MapFn} {now : Nat}
    {tableName sfId ct : String} {rid : Option String} {data : SfData}
    {db : Db} {res : UpsertOk} {db' : Db}
    (hwf : Table.WF (db.getTable tableName))
    (h : upsertRecord cfg mapRec now tableName sfId ct rid data db = .ok (res, db'))
    (s : String)
    (hex : ∃ r ∈ (db.getTable tableName).rows, r.doc.sfId = s ∧ r.doc.cdcChangeType = ct) :
    ∃ r ∈ (db'.getTable tableName).rows, r.doc.sfId = s ∧ r.doc.cdcChangeType = ct := by
  rcases hex with ⟨r, hr, hrs, hrct⟩
  rcases upsert_ok_cases h with ⟨oc, hoc, ⟨e, hfind, hres, hdb⟩ | ⟨hfind, hres, hdb⟩⟩
  · subst hdb
    rw [getTable_setTable]
    by_cases hid : r.id = e.id
    · have hre : r = e :=
        pairwise_id_unique hwf.2 r hr e (List.mem_of_find?_eq_some hfind) hid
      have hes : e.doc.sfId = sfId := by
        have := List.find?_some hfind
        simpa using this
      refine ⟨{ r with doc := patchRecord r.doc (builtRecord mapRec oc now sfId ct rid data) },
        List.mem_map.mpr ⟨r, hr, by rw [if_pos hid]⟩, ?_, ?_⟩
      · show (builtRecord mapRec oc now sfId ct rid data).sfId = s
        rw [← hrs, hre, hes]
        rfl
      · rfl
    · exact ⟨r, List.mem_map.mpr ⟨r, hr, by rw [if_neg hid]⟩, hrs, hrct⟩
  · subst hdb
    rw [getTable_setTable]
    exact ⟨r, List.mem_append_left _ hr, hrs, hrct⟩

/-- Once the mirror table holds exactly one row for the natural key,
every further sequence of upserts for that key keeps exactly one row. -/
lemma runUpserts_keeps_one {cfg : List ObjectConfig} {mapRec : MapFn}
    {tableName sfId : String} :
    ∀ (evs : List EvApp) (db : Db), Db.WF db → isEnabledTable cfg tableName = true →
      rowsFor db tableName sfId = 1 →
      rowsFor (runUpserts cfg mapRec tableName sfId evs db) tableName sfId = 1 := by
  intro evs
  induction evs with
  | nil =>
    intro db _ _ h1
    exact h1
  | cons e es ih =>
    intro db hwf hen h1
    rcases upsert_ok_of_enabled mapRec e.now sfId e.changeType e.replayId e.data db hen with
      ⟨res, db', hok⟩
    simp only [runUpserts]
    rw [hok]
    apply ih db' (wf_after_upsert hwf hok) hen
    rw [rowsFor_after_upsert (getTable_wf hwf tableName) hok, h1]
    rfl

/-- C1 (invariants): for every finite, nonempty sequence of
`upsertRecord` calls sharing one (tableName, sfId) pair on a mirror
table of an enabled configuration, starting from a store holding no row
for that pair, the table ends with exactly one row for the pair,
whatever the change types, payloads, clock readings and order of the
calls.  A sequence with no calls is excluded (it trivially leaves zero
rows), as is an unknown table name (there every call throws and mutates
nothing); `MapperNoSfId` is the embedding fidelity side condition on the
field mapper described in the file header. -/
theorem upsert_at_most_one_row
    (cfg : List ObjectConfig) (mapRec : MapFn) (tableName sfId : String)
    (evs : List EvApp) (db : Db)
    (hmap : MapperNoSfId mapRec)
    (hwf : Db.WF db)
    (hen : isEnabledTable cfg tableName = true)
    (h0 : rowsFor db tableName sfId = 0)
    (hne : evs ≠ []) :
    rowsFor (runUpserts cfg mapRec tableName sfId evs db) tableName sfId = 1 := by
  cases evs with
  | nil => exact absurd rfl hne
  | cons e es =>
    rcases upsert_ok_of_enabled mapRec e.now sfId e.changeType e.replayId e.data db hen with
      ⟨res, db', hok⟩
    simp only [runUpserts]
    rw [hok]
    apply runUpserts_keeps_one es db' (wf_after_upsert hwf hok) hen
    rw [rowsFor_after_upsert (getTable_wf hwf tableName) hok, h0]
    rfl

/-- Witness for C1 at a concrete input: two calls (a CREATE then a
DELETE) for one Contact id on the empty store leave exactly one row. -/
theorem upsert_at_most_one_row_witness :
    MapperNoSfId emptyMapper ∧ Db.WF emptyDb ∧
    isEnabledTable sampleCfg "sfContacts" = true ∧
    rowsFor emptyDb "sfContacts" "003A" = 0 ∧
    rowsFor (runUpserts sampleCfg emptyMapper "sfContacts" "003A"
        [{ changeType := "CREATE", replayId := none, data := sampleData "003A", now := 5 },
         { changeType := "DELETE", replayId := none, data := sampleData "003A", now := 6 }]
        emptyDb) "sfContacts" "003A" = 1 := by
  have hmap : MapperNoSfId emptyMapper := by
    intro oc data p hp
    simp [emptyMapper] at hp
  have hwf : Db.WF emptyDb := by
    intro p hp
    simp [emptyDb] at hp
  exact ⟨hmap, hwf, rfl, rfl,
    upsert_at_most_one_row sampleCfg emptyMapper "sfContacts" "003A" _ emptyDb
      hmap hwf rfl rfl (by simp)⟩

/-- C2 (algebraic_relational): applying the same event (same tableName,
sfId, changeType, replayId, data — and the same clock reading, since the
record stores a `syncedAt` wall-clock stamp) twice via `upsertRecord`
starting from a table with no row for the pair yields exactly one Mirror
Record; the second application leaves the store state identical to the
state after the first, the first reports `created` and the second
reports `updated`. -/
theorem upsert_idempotent
    (cfg : List ObjectConfig) (mapRec : MapFn) (now : Nat)
    (tableName sfId ct : String) (rid : Option String) (data : SfData) (db : Db)
    (hmap : MapperNoSfId mapRec)
    (hwf : Db.WF db)
    (hen : isEnabledTable cfg tableName = true)
    (h0 : rowsFor db tableName sfId = 0) :
    ∃ res1 db1 res2 db2,
      upsertRecord cfg mapRec now tableName sfId ct rid data db = .ok (res1, db1) ∧
      res1.action = "created" ∧
      upsertRecord cfg mapRec now tableName sfId ct rid data db1 = .ok (res2, db2) ∧
      res2.action = "updated" ∧
      db2 = db1 ∧
      rowsFor db1 tableName sfId = 1 := by
  have hfind1 : (db.getTable tableName).rows.find? (fun r => r.doc.sfId = sfId) = none := by
    rw [List.find?_eq_none]
    intro r hr
    unfold rowsFor at h0
    rw [List.length_eq_zero, List.filter_eq_nil_iff] at h0
    exact h0 r hr
  rcases upsert_ok_of_enabled mapRec now sfId ct rid data db hen with ⟨res1, db1, hok1⟩
  have h1count : rowsFor db1 tableName sfId = 1 := by
    rw [rowsFor_after_upsert (getTable_wf hwf tableName) hok1, h0]
    rfl
  rcases upsert_ok_cases hok1 with ⟨oc, hoc, ⟨e, hfind, _, _⟩ | ⟨_, hres1, hdb1⟩⟩
  · rw [hfind1] at hfind
    cases hfind
  · have hgt1 : db1.getTable tableName =
        { rows := (db.getTable tableName).rows ++
            [{ id := (db.getTable tableName).nextId,
               doc := builtRecord mapRec oc now sfId ct rid data }],
          nextId := (db.getTable tableName).nextId + 1 } := by
      rw [hdb1, getTable_setTable]
    have hfindIns : ((db.getTable tableName).rows ++
        [({ id := (db.getTable tableName).nextId,
            doc := builtRecord mapRec oc now sfId ct rid data } : Row)]).find?
          (fun r => r.doc.sfId = sfId) =
        some { id := (db.getTable tableName).nextId,
               doc := builtRecord mapRec oc now sfId ct rid data } := by
      rw [List.find?_append, hfind1, Option.none_or]
      exact List.find?_cons_of_pos _ (by simp [builtRecord])
    have hmapid : ((db.getTable tableName).rows ++
        [({ id := (db.getTable tableName).nextId,
            doc := builtRecord mapRec oc now sfId ct rid data } : Row)]).map
          (fun r => if r.id = (db.getTable tableName).nextId then
              { r with doc := patchRecord r.doc (builtRecord mapRec oc now sfId ct rid data) }
            else r) =
        ((db.getTable tableName).rows ++
          [({ id := (db.getTable tableName).nextId,
              doc := builtRecord mapRec oc now sfId ct rid data } : Row)]) := by
      have hall : ∀ a ∈ ((db.getTable tableName).rows ++
          [({ id := (db.getTable tableName).nextId,
              doc := builtRecord mapRec oc now sfId ct rid data } : Row)]),
          (if a.id = (db.getTable tableName).nextId then
              { a with doc := patchRecord a.doc (builtRecord mapRec oc now sfId ct rid data) }
            else a) = a := by
        intro a ha
        rcases List.mem_append.mp ha with haold | hanew
        · have hlt : a.id < (db.getTable tableName).nextId :=
            (getTable_wf hwf tableName).1 a haold
          rw [if_neg (Nat.ne_of_lt hlt)]
        · rcases List.mem_singleton.mp hanew with rfl
          rw [if_pos rfl]
          show ({ id := _, doc := patchRecord (builtRecord mapRec oc now sfId ct rid data)
                    (builtRecord mapRec oc now sfId ct rid data) } : Row) = _
          rw [patchRecord_self]
      exact (List.map_congr_left hall).trans (List.map_id _)
    have hok2 : upsertRecord cfg mapRec now tableName sfId ct rid data db1 =
        .ok ({ action := "updated", id := (db.getTable tableName).nextId }, db1) := by
      have hfold : ({ sfId := sfId, mapped := mapRec oc data, cdcChangeType := ct,
                      cdcReplayId := rid, isDeleted := decide (ct = "DELETE"),
                      syncedAt := now, sfCreatedDate := nullToUndefined data.CreatedDate,
                      sfLastModifiedDate := nullToUndefined data.LastModifiedDate } :
            MirrorRecord) =
          builtRecord mapRec oc now sfId ct rid data := rfl
      simp only [upsertRecord, hoc, hgt1, hfindIns]
      rw [hfold, hmapid, hdb1, setTable_setTable]
    exact ⟨res1, db1, { action := "updated", id := (db.getTable tableName).nextId }, db1,
      hok1, by rw [hres1], hok2, rfl, rfl, h1count⟩

/-- Witness for C2 at a concrete input: one UPDATE event applied twice
to the empty store. -/
theorem upsert_idempotent_witness :
    MapperNoSfId emptyMapper ∧ Db.WF emptyDb ∧
    isEnabledTable sampleCfg "sfContacts" = true ∧
    rowsFor emptyDb "sfContacts" "003A" = 0 ∧
    (∃ res1 db1 res2 db2,
      upsertRecord sampleCfg emptyMapper 7 "sfContacts" "003A" "UPDATE" none
        (sampleData "003A") emptyDb = .ok (res1, db1) ∧
      res1.action = "created" ∧
      upsertRecord sampleCfg emptyMapper 7 "sfContacts" "003A" "UPDATE" none
        (sampleData "003A") db1 = .ok (res2, db2) ∧
      res2.action = "updated" ∧
      db2 = db1 ∧
      rowsFor db1 "sfContacts" "003A" = 1) := by
  have hmap : MapperNoSfId emptyMapper := by
    intro oc data p hp
    simp [emptyMapper] at hp
  have hwf : Db.WF emptyDb := by
    intro p hp
    simp [emptyDb] at hp
  exact ⟨hmap, hwf, rfl, rfl,
    upsert_idempotent sampleCfg emptyMapper 7 "sfContacts" "003A" "UPDATE" none
      (sampleData "003A") emptyDb hmap hwf rfl rfl⟩

/-- C5 (functional_correctness): every successful `upsertRecord` call
stores a record with `isDeleted = true` exactly when the change type is
"DELETE" and with `cdcChangeType` set to the given change type; no call
physically removes a row (every pre-existing internal id survives); and
a DELETE followed by an UNDELETE or SYNC call for the same
(tableName, sfId) patches the SAME row (same internal id, reported as
`updated`) back to `isDeleted = false`. -/
theorem upsert_delete_nondestructive :
    (∀ (cfg : List ObjectConfig) (mapRec : MapFn) (now : Nat)
       (tableName sfId ct : String) (rid : Option String) (data : SfData)
       (db : Db) (res : UpsertOk) (db' : Db),
       MapperNoSfId mapRec → Db.WF db →
       upsertRecord cfg mapRec now tableName sfId ct rid data db = .ok (res, db') →
       ∃ r ∈ (db'.getTable tableName).rows,
         r.id = res.id ∧ r.doc.sfId = sfId ∧ r.doc.cdcChangeType = ct ∧
         (r.doc.isDeleted = true ↔ ct = "DELETE")) ∧
    (∀ (cfg : List ObjectConfig) (mapRec : MapFn) (now : Nat)
       (tableName sfId ct : String) (rid : Option String) (data : SfData)
       (db : Db) (res : UpsertOk) (db' : Db),
       upsertRecord cfg mapRec now tableName sfId ct rid data db = .ok (res, db') →
       ∀ r ∈ (db.getTable tableName).rows,
         ∃ r' ∈ (db'.getTable tableName).rows, r'.id = r.id) ∧
    (∀ (cfg : List ObjectConfig) (mapRec : MapFn) (now1 now2 : Nat)
       (tableName sfId ct2 : String) (rid1 rid2 : Option String) (data1 data2 : SfData)
       (db : Db) (res1 : UpsertOk) (db1 : Db) (res2 : UpsertOk) (db2 : Db),
       MapperNoSfId mapRec → Db.WF db →
       (ct2 = "UNDELETE" ∨ ct2 = "SYNC") →
       upsertRecord cfg mapRec now1 tableName sfId "DELETE" rid1 data1 db = .ok (res1, db1) →
       upsertRecord cfg mapRec now2 tableName sfId ct2 rid2 data2 db1 = .ok (res2, db2) →
       res2.action = "updated" ∧ res2.id = res1.id ∧
       ∃ r ∈ (db2.getTable tableName).rows,
         r.id = res1.id ∧ r.doc.isDeleted = false ∧ r.doc.sfId = sfId) := by
  refine ⟨?_, ?_, ?_⟩
  · intro cfg mapRec now tableName sfId ct rid data db res db' hmap hwf hok
    rcases find?_after_upsert (getTable_wf hwf tableName) hok with
      ⟨r, hfind, hid, hsf, hct, hdel, _, _⟩
    refine ⟨r, List.mem_of_find?_eq_some hfind, hid, hsf, hct, ?_⟩
    rw [hdel]
    exact decide_eq_true_iff
  · intro cfg mapRec now tableName sfId ct rid data db res db' hok
    exact ids_after_upsert hok
  · intro cfg mapRec now1 now2 tableName sfId ct2 rid1 rid2 data1 data2
      db res1 db1 res2 db2 hmap hwf hct2 hok1 hok2
    have htwf := getTable_wf hwf tableName
    rcases find?_after_upsert htwf hok1 with ⟨r1, hfind1, hid1, _, _, _, _, _⟩
    have hwf1 := wf_after_upsert hwf hok1
    rcases find?_after_upsert (getTable_wf hwf1 tableName) hok2 with
      ⟨r2, hfind2', hid2, hsf2, _, hdel2, _, _⟩
    have hdel2' : r2.doc.isDeleted = false := by
      rcases hct2 with rfl | rfl
      · rw [hdel2]
        rfl
      · rw [hdel2]
        rfl
    rcases upsert_ok_cases hok2 with ⟨oc2, hoc2, ⟨e2, hfind2, hres2, hdb2⟩ | ⟨hfind2, _, _⟩⟩
    · have he2 : e2 = r1 := Option.some.inj (hfind2.symm.trans hfind1)
      subst he2
      refine ⟨by rw [hres2], ?_, r2, List.mem_of_find?_eq_some hfind2', ?_, hdel2', hsf2⟩
      · rw [hres2, ← hid1]
      · rw [hid2, hres2, ← hid1]
    · rw [hfind2] at hfind1
      cases hfind1

/-- Witness for C5 at a concrete input: a DELETE upsert on the empty
store leaves a row flagged deleted with change type "DELETE". -/
theorem upsert_delete_nondestructive_witness :
    ∃ res db',
      upsertRecord sampleCfg emptyMapper 5 "sfContacts" "003A" "DELETE" none
        (sampleData "003A") emptyDb = .ok (res, db') ∧
      ∃ r ∈ (db'.getTable "sfContacts").rows,
        r.id = res.id ∧ r.doc.sfId = "003A" ∧ r.doc.cdcChangeType = "DELETE" ∧
        (r.doc.isDeleted = true ↔ ("DELETE" : String) = "DELETE") := by
  have hmap : MapperNoSfId emptyMapper := by
    intro oc data p hp
    simp [emptyMapper] at hp
  have hwf : Db.WF emptyDb := by
    intro p hp
    simp [emptyDb] at hp
  refine ⟨_, _, rfl, ?_⟩
  exact upsert_delete_nondestructive.1 sampleCfg emptyMapper 5 "sfContacts" "003A"
    "DELETE" none (sampleData "003A") emptyDb _ _ hmap hwf rfl

/-- Every iteration of the batch loop bumps exactly one of the two
tallies: their sum grows by the number of events processed. -/
lemma batchAux_counts (cfg : List ObjectConfig) (mapRec : MapFn) (now : Nat) :
    ∀ (events : List EventArgs) (db : Db) (s f : Nat),
      (processCdcBatchAux cfg mapRec now events db s f).1 +
        (processCdcBatchAux cfg mapRec now events db s f).2.1 = s + f + events.length := by
  intro events
  induction events with
  | nil =>
    intro db s f
    simp [processCdcBatchAux]
  | cons e es ih =>
    intro db s f
    cases hoc : getObjectByApiName cfg e.objectType with
    | none =>
      simp only [processCdcBatchAux, hoc]
      have h := ih db s (f + 1)
      simp only [List.length_cons]
      omega
    | some oc =>
      by_cases hen : oc.enabled = true
      · simp only [processCdcBatchAux, hoc]
        rw [if_neg (by simp [hen])]
        rcases hup : upsertRecord cfg mapRec now oc.tableName e.recordId e.changeType
            e.replayId e.data db with m | ⟨r, db'⟩
        · have h := ih db s (f + 1)
          simp only [List.length_cons]
          omega
        · have h := ih db' (s + 1) f
          simp only [List.length_cons]
          omega
      · simp only [processCdcBatchAux, hoc]
        rw [if_pos (by simp [hen])]
        have h := ih db s (f + 1)
        simp only [List.length_cons]
        omega

/-- When every event of the batch names an unconfigured or disabled
entity type, the loop only bumps the failed tally and never touches the
store. -/
lemma batchAux_unconfigured (cfg : List ObjectConfig) (mapRec : MapFn) (now : Nat) :
    ∀ (events : List EventArgs) (db : Db) (s f : Nat),
      (∀ e ∈ events, eventUnconfigured cfg e = true) →
      processCdcBatchAux cfg mapRec now events db s f = (s, f + events.length, db) := by
  intro events
  induction events with
  | nil =>
    intro db s f _
    simp [processCdcBatchAux]
  | cons e es ih =>
    intro db s f hall
    have he := hall e (List.mem_cons_self e es)
    have hrest : ∀ x ∈ es, eventUnconfigured cfg x = true :=
      fun x hx => hall x (List.mem_cons_of_mem e hx)
    unfold eventUnconfigured at he
    cases hoc : getObjectByApiName cfg e.objectType with
    | none =>
      simp only [processCdcBatchAux, hoc]
      rw [ih db s (f + 1) hrest]
      simp only [List.length_cons]
      rw [show f + 1 + es.length = f + (es.length + 1) from by omega]
    | some oc =>
      rw [hoc] at he
      simp only [decide_eq_true_eq] at he
      simp only [processCdcBatchAux, hoc]
      rw [if_pos he]
      rw [ih db s (f + 1) hrest]
      simp only [List.length_cons]
      rw [show f + 1 + es.length = f + (es.length + 1) from by omega]

/-- An enabled configuration entry makes its table name resolve among
the enabled tables. -/
lemma enabledTable_of_config {cfg : List ObjectConfig} {oc : ObjectConfig}
    (hmem : oc ∈ cfg) (hen : oc.enabled = true) :
    isEnabledTable cfg oc.tableName = true := by
  unfold isEnabledTable
  exact List.find?_isSome.mpr ⟨oc, List.mem_filter.mpr ⟨hmem, hen⟩, by simp⟩

/-- C6 (error_handling): `processCdcBatch` never aborts on a single
event: it always reports `processed` equal to the event count with
`succeeded + failed = processed`; when every event names an
unconfigured or disabled entity type the whole batch fails without the
upsert engine ever touching the store; and on the concrete 5-event
batch whose third event names the disabled entity type it reports
processed=5, succeeded=4, failed=1 and applies the other four events to
the mirror store. -/
theorem processCdcBatch_partial_failure :
    (∀ (cfg : List ObjectConfig) (mapRec : MapFn) (now : Nat)
       (events : List EventArgs) (db : Db),
       (processCdcBatch cfg mapRec now events db).1.processed = events.length ∧
       (processCdcBatch cfg mapRec now events db).1.succeeded +
         (processCdcBatch cfg mapRec now events db).1.failed = events.length) ∧
    (∀ (cfg : List ObjectConfig) (mapRec : MapFn) (now : Nat)
       (events : List EventArgs) (db : Db),
       (∀ e ∈ events, eventUnconfigured cfg e = true) →
       processCdcBatch cfg mapRec now events db =
         ({ processed := events.length, succeeded := 0, failed := events.length }, db)) ∧
    ((processCdcBatch sampleCfg mapRecordToDocument 9 fiveEvents emptyDb).1 =
       { processed := 5, succeeded := 4, failed := 1 } ∧
     rowsFor (processCdcBatch sampleCfg mapRecordToDocument 9 fiveEvents emptyDb).2
       "sfContacts" "003A" = 1 ∧
     rowsFor (processCdcBatch sampleCfg mapRecordToDocument 9 fiveEvents emptyDb).2
       "sfContacts" "003B" = 1 ∧
     rowsFor (processCdcBatch sampleCfg mapRecordToDocument 9 fiveEvents emptyDb).2
       "sfContacts" "003D" = 1 ∧
     rowsFor (processCdcBatch sampleCfg mapRecordToDocument 9 fiveEvents emptyDb).2
       "sfContacts" "003E" = 1 ∧
     rowsFor (processCdcBatch sampleCfg mapRecordToDocument 9 fiveEvents emptyDb).2
       "sfBroken" "003C" = 0) := by
  refine ⟨?_, ?_, ?_⟩
  · intro cfg mapRec now events db
    refine ⟨rfl, ?_⟩
    have h := batchAux_counts cfg mapRec now events db 0 0
    simpa using h
  · intro cfg mapRec now events db hall
    unfold processCdcBatch
    rw [batchAux_unconfigured cfg mapRec now events db 0 0 hall]
    simp
  · decide

/-- Witness for C6 at a concrete input: a one-event batch naming the
disabled entity type fails wholesale and leaves the store untouched. -/
theorem processCdcBatch_partial_failure_witness :
    (∀ e ∈ [mkEvent "Broken" "003X"], eventUnconfigured sampleCfg e = true) ∧
    processCdcBatch sampleCfg mapRecordToDocument 3 [mkEvent "Broken" "003X"] emptyDb =
      ({ processed := 1, succeeded := 0, failed := 1 }, emptyDb) := by
  have hall : ∀ e ∈ [mkEvent "Broken" "003X"], eventUnconfigured sampleCfg e = true := by
    decide
  exact ⟨hall, processCdcBatch_partial_failure.2.1 sampleCfg mapRecordToDocument 3
    [mkEvent "Broken" "003X"] emptyDb hall⟩

/-- C7 counterexample: a per-event processing failure that writes NO
Event Log entry.  The event names the disabled entity type, so
`processCdcEvent` reports failure, yet the `cdcEventLog` table stays
empty — the early return on an unconfigured or disabled entity type
never calls `logCdcEvent` (and `processCdcBatch` contains no
`logCdcEvent` call at all). -/
theorem processCdcEvent_failure_without_log :
    (processCdcEvent sampleCfg mapRecordToDocument 3 (mkEvent "Broken" "003X") emptyDb).1.success
      = false ∧
    (processCdcEvent sampleCfg mapRecordToDocument 3 (mkEvent "Broken" "003X") emptyDb).2.eventLog
      = [] := by
  decide

/-- The batch loop never touches the event log. -/
lemma batchAux_eventLog (cfg : List ObjectConfig) (mapRec : MapFn) (now : Nat) :
    ∀ (events : List EventArgs) (db : Db) (s f : Nat),
      (processCdcBatchAux cfg mapRec now events db s f).2.2.eventLog = db.eventLog := by
  intro events
  induction events with
  | nil =>
    intro db s f
    rfl
  | cons e es ih =>
    intro db s f
    cases hoc : getObjectByApiName cfg e.objectType with
    | none =>
      simp only [processCdcBatchAux, hoc]
      exact ih db s (f + 1)
    | some oc =>
      by_cases hen : oc.enabled = true
      · simp only [processCdcBatchAux, hoc]
        rw [if_neg (by simp [hen])]
        rcases hup : upsertRecord cfg mapRec now oc.tableName e.recordId e.changeType
            e.replayId e.data db with m | ⟨r, db'⟩
        · exact ih db s (f + 1)
        · rw [show (processCdcBatchAux cfg mapRec now es db' (s + 1) f).2.2.eventLog =
              db'.eventLog from ih db' (s + 1) f]
          exact eventLog_after_upsert hup
      · simp only [processCdcBatchAux, hoc]
        rw [if_pos (by simp [hen])]
        exact ih db s (f + 1)

/-- C7 amended (error_handling): only the upsert path of
`processCdcEvent` writes Event Log entries.  An event resolving to an
enabled entity type yields exactly one `cdcEventLog` row recording
success; an event naming an unconfigured or disabled entity type fails
WITHOUT writing any Event Log entry; and `processCdcBatch` never writes
an Event Log entry for any event, failed or not. -/
theorem event_log_write_policy :
    (∀ (cfg : List ObjectConfig) (mapRec : MapFn) (now : Nat)
       (e : EventArgs) (db : Db) (oc : ObjectConfig),
       getObjectByApiName cfg e.objectType = some oc → oc.enabled = true →
       (processCdcEvent cfg mapRec now e db).1.success = true ∧
       (processCdcEvent cfg mapRec now e db).2.eventLog =
         db.eventLog ++
           [{ objectType := e.objectType, changeType := e.changeType,
              recordId := e.recordId, replayId := e.replayId,
              success := true, error := none, processedAt := now }]) ∧
    (∀ (cfg : List ObjectConfig) (mapRec : MapFn) (now : Nat)
       (e : EventArgs) (db : Db),
       eventUnconfigured cfg e = true →
       (processCdcEvent cfg mapRec now e db).1.success = false ∧
       (processCdcEvent cfg mapRec now e db).2 = db) ∧
    (∀ (cfg : List ObjectConfig) (mapRec : MapFn) (now : Nat)
       (events : List EventArgs) (db : Db),
       (processCdcBatch cfg mapRec now events db).2.eventLog = db.eventLog) := by
  refine ⟨?_, ?_, ?_⟩
  · intro cfg mapRec now e db oc hcfg hen
    have hmem : oc ∈ cfg := List.mem_of_find?_eq_some hcfg
    rcases upsert_ok_of_enabled mapRec now e.recordId e.changeType e.replayId e.data db
      (enabledTable_of_config hmem hen) with ⟨res, db', hok⟩
    simp only [processCdcEvent, hcfg]
    rw [if_neg (by simp [hen]), hok]
    constructor
    · rfl
    · show (logCdcEvent db' e.objectType e.changeType e.recordId e.replayId true none now).eventLog
        = db.eventLog ++
          [{ objectType := e.objectType, changeType := e.changeType,
             recordId := e.recordId, replayId := e.replayId,
             success := true, error := none, processedAt := now }]
      unfold logCdcEvent
      rw [eventLog_after_upsert hok]
  · intro cfg mapRec now e db hbad
    unfold eventUnconfigured at hbad
    cases hcfg : getObjectByApiName cfg e.objectType with
    | none =>
      refine ⟨?_, ?_⟩ <;> simp only [processCdcEvent, hcfg]
    | some oc =>
      rw [hcfg] at hbad
      simp only [decide_eq_true_eq] at hbad
      refine ⟨?_, ?_⟩ <;> simp only [processCdcEvent, hcfg] <;> rw [if_pos hbad]
  · intro cfg mapRec now events db
    unfold processCdcBatch
    exact batchAux_eventLog cfg mapRec now events db 0 0

/-- Witness for the amended C7 at a concrete input: a successful Contact
event appends exactly one success row to the empty event log. -/
theorem event_log_write_policy_witness :
    getObjectByApiName sampleCfg "Contact" = some contactCfg ∧
    contactCfg.enabled = true ∧
    (processCdcEvent sampleCfg mapRecordToDocument 3 (mkEvent "Contact" "003A") emptyDb).1.success
      = true ∧
    (processCdcEvent sampleCfg mapRecordToDocument 3 (mkEvent "Contact" "003A") emptyDb).2.eventLog
      = emptyDb.eventLog ++
        [{ objectType := "Contact", changeType := "UPDATE", recordId := "003A",
           replayId := none, success := true, error := none, processedAt := 3 }] := by
  have h := event_log_write_policy.1 sampleCfg mapRecordToDocument 3
    (mkEvent "Contact" "003A") emptyDb contactCfg rfl rfl
  exact ⟨rfl, rfl, h.1, h.2⟩

/-- C8 counterexample: `getCredentials` fails with a stored token
present.  The stored token is past expiry, the refresh round trip fails,
and no static environment fallback is set: the call throws even though a
stored token exists, contradicting "fails exactly when neither a stored
token nor the static fallback exists". -/
theorem getCredentials_error_with_stored_token :
    (some tokStale).isSome = true ∧
    getCredentials (some tokStale) (fun _ _ => none) noEnv 1000000 =
      .error "Salesforce credentials not configured. Run 'npm run setup' or set environment variables." := by
  exact ⟨rfl, rfl⟩

/-- C8 amended (functional_correctness): `getCredentials` returns a
stored token unchanged with no refresh attempt while it is more than 5
minutes from expiry; once near or past expiry it refreshes (keeping the
refresh token, expiry = now + reported lifetime) when the refresh
succeeds, falls back to the static environment credentials when the
refresh fails or no token is stored, and fails exactly when the static
fallback is unusable AND no stored token is fresh or refreshable —
in particular every failure implies the static fallback is unusable,
but a failure can occur with an (expired, unrefreshable) stored token
present. -/
theorem getCredentials_spec :
    (∀ (st : StoredToken) (refresh : String → String → Option Refreshed)
       (env : EnvCreds) (now : Nat),
       st.expiresAt > now + EXPIRY_BUFFER_MS →
       getCredentials (some st) refresh env now =
         .ok ({ accessToken := st.accessToken, instanceUrl := st.instanceUrl },
              some st, false)) ∧
    (∀ (st : StoredToken) (refresh : String → String → Option Refreshed)
       (env : EnvCreds) (now : Nat) (r : Refreshed),
       ¬ st.expiresAt > now + EXPIRY_BUFFER_MS →
       st.refreshToken ≠ "" →
       refresh st.refreshToken st.instanceUrl = some r →
       getCredentials (some st) refresh env now =
         .ok ({ accessToken := r.accessToken, instanceUrl := st.instanceUrl },
              some { accessToken := r.accessToken, refreshToken := st.refreshToken,
                     instanceUrl := st.instanceUrl, expiresAt := now + r.expiresIn * 1000,
                     createdAt := now },
              true)) ∧
    (∀ (st : StoredToken) (refresh : String → String → Option Refreshed)
       (env : EnvCreds) (now : Nat),
       ¬ st.expiresAt > now + EXPIRY_BUFFER_MS →
       st.refreshToken ≠ "" →
       refresh st.refreshToken st.instanceUrl = none →
       jsTruthyStr env.accessToken = true → jsTruthyStr env.instanceUrl = true →
       getCredentials (some st) refresh env now =
         .ok ({ accessToken := env.accessToken.getD "", instanceUrl := env.instanceUrl.getD "" },
              some st, true)) ∧
    (∀ (refresh : String → String → Option Refreshed) (env : EnvCreds) (now : Nat),
       jsTruthyStr env.accessToken = true → jsTruthyStr env.instanceUrl = true →
       getCredentials none refresh env now =
         .ok ({ accessToken := env.accessToken.getD "", instanceUrl := env.instanceUrl.getD "" },
              none, false)) ∧
    (∀ (stored : Option StoredToken) (refresh : String → String → Option Refreshed)
       (env : EnvCreds) (now : Nat) (msg : String),
       getCredentials stored refresh env now = .error msg →
       ¬ (jsTruthyStr env.accessToken = true ∧ jsTruthyStr env.instanceUrl = true)) ∧
    (∀ (refresh : String → String → Option Refreshed) (env : EnvCreds) (now : Nat),
       ¬ (jsTruthyStr env.accessToken = true ∧ jsTruthyStr env.instanceUrl = true) →
       ∃ msg, getCredentials none refresh env now = .error msg) := by
  refine ⟨?_, ?_, ?_, ?_, ?_, ?_⟩
  · intro st refresh env now hfresh
    simp only [getCredentials]
    rw [if_pos hfresh]
  · intro st refresh env now r hstale hrt hr
    simp only [getCredentials]
    rw [if_neg hstale, if_pos hrt, hr]
  · intro st refresh env now hstale hrt hr ha hi
    simp only [getCredentials]
    rw [if_neg hstale, if_pos hrt, hr]
    rw [if_pos ⟨ha, hi⟩]
  · intro refresh env now ha hi
    simp only [getCredentials]
    rw [if_pos ⟨ha, hi⟩]
  · intro stored refresh env now msg herr
    intro henv
    cases stored with
    | none =>
      simp only [getCredentials] at herr
      rw [if_pos henv] at herr
      cases herr
    | some st =>
      simp only [getCredentials] at herr
      by_cases hfresh : st.expiresAt > now + EXPIRY_BUFFER_MS
      · rw [if_pos hfresh] at herr
        cases herr
      · rw [if_neg hfresh] at herr
        by_cases hrt : st.refreshToken ≠ ""
        · rw [if_pos hrt] at herr
          cases hr : refresh st.refreshToken st.instanceUrl with
          | some r =>
            rw [hr] at herr
            cases herr
          | none =>
            rw [hr] at herr
            rw [if_pos henv] at herr
            cases herr
        · rw [if_neg hrt] at herr
          rw [if_pos henv] at herr
          cases herr
  · intro refresh env now henv
    simp only [getCredentials]
    rw [if_neg henv]
    exact ⟨_, rfl⟩

/-- Witness for the amended C8 at a concrete input: a fresh stored token
is returned unchanged with no refresh attempt. -/
theorem getCredentials_spec_witness :
    tokFresh.expiresAt > 1000 + EXPIRY_BUFFER_MS ∧
    getCredentials (some tokFresh) (fun _ _ => none) noEnv 1000 =
      .ok ({ accessToken := "storedAT", instanceUrl := "https://stored.example" },
           some tokFresh, false) := by
  refine ⟨by decide, ?_⟩
  exact getCredentials_spec.1 tokFresh (fun _ _ => none) noEnv 1000 (by decide)

/-- C4 counterexample: a timestamp header that does NOT parse as a
number is not rejected by the freshness check.  With `parseInt`
returning NaN the `Math.abs(now - timestampMs) > 300000` comparison is
false, so the request falls through to the signature comparison and —
when the sender holding the secret signed exactly this non-numeric
timestamp — verifies successfully, contradicting "returns invalid
whenever the timestamp header does not parse as an integer".  The
digest function is the abstract `hmac` parameter; the instance below
exhibits the accepting run. -/
theorem verify_nan_timestamp_accepted :
    jsParseInt "x" = none ∧
    verifyWebhookSignature (some "s") (fun _ m => m) 1000000 "b" (some "x.b") (some "x") =
      { valid := true, error := none } := by
  exact ⟨rfl, rfl⟩

/-- C4 amended (functional_correctness): with a secret configured and
both headers present, `verifyWebhookSignature` returns invalid with
"Request timestamp too old" whenever the timestamp parses (via
`parseInt`) to a value more than 5 minutes from the current time in
either direction; a timestamp within the window proceeds to the
signature comparison — and so does a timestamp that does NOT parse at
all (NaN), which the freshness check cannot reject. -/
theorem verify_timestamp_window :
    (∀ (sec : String) (hmac : String → String → String) (now : Int)
       (payload sig ts : String) (n : Int),
       jsParseInt ts = some n → (now - n).natAbs > 5 * 60 * 1000 →
       verifyWebhookSignature (some sec) hmac now payload (some sig) (some ts) =
         { valid := false, error := some "Request timestamp too old" }) ∧
    (∀ (sec : String) (hmac : String → String → String) (now : Int)
       (payload sig ts : String),
       jsParseInt ts = none →
       (verifyWebhookSignature (some sec) hmac now payload (some sig) (some ts)).valid =
         decide (sig = hmac sec (ts ++ "." ++ payload))) ∧
    (∀ (sec : String) (hmac : String → String → String) (now : Int)
       (payload sig ts : String) (n : Int),
       jsParseInt ts = some n → ¬ (now - n).natAbs > 5 * 60 * 1000 →
       (verifyWebhookSignature (some sec) hmac now payload (some sig) (some ts)).valid =
         decide (sig = hmac sec (ts ++ "." ++ payload))) := by
  refine ⟨?_, ?_, ?_⟩
  · intro sec hmac now payload sig ts n hp habs
    simp only [verifyWebhookSignature, hp]
    rw [if_pos (by simpa using habs)]
  · intro sec hmac now payload sig ts hp
    simp only [verifyWebhookSignature, hp]
    by_cases heq : sig = hmac sec (ts ++ "." ++ payload)
    · rw [if_neg (by simp [heq]), heq]
      simp
    · rw [if_pos heq]
      simp [heq]
  · intro sec hmac now payload sig ts n hp habs
    simp only [verifyWebhookSignature, hp]
    rw [if_neg (by simpa using habs)]
    by_cases heq : sig = hmac sec (ts ++ "." ++ payload)
    · rw [if_neg (by simp [heq]), heq]
      simp
    · rw [if_pos heq]
      simp [heq]

/-- Witness for the amended C4 at a concrete input: the timestamp
"1000000" parses and lies more than 5 minutes from clock 10000000, so
verification rejects with the timestamp error. -/
theorem verify_timestamp_window_witness :
    jsParseInt "1000000" = some 1000000 ∧
    ((10000000 : Int) - 1000000).natAbs > 5 * 60 * 1000 ∧
    verifyWebhookSignature (some "s") (fun _ m => m) 10000000 "b" (some "sig") (some "1000000") =
      { valid := false, error := some "Request timestamp too old" } := by
  refine ⟨by decide, by decide, ?_⟩
  exact verify_timestamp_window.1 "s" (fun _ m => m) 10000000 "b" "sig" "1000000" 1000000
    (by decide) (by decide)

/-- Characterization of acceptance when a secret is configured and the
timestamp header is present: the provided signature must equal the
digest of timestamp, dot, raw body, and any parsed timestamp must lie
within the 5-minute window. -/
lemma verify_valid_iff (sec : String) (hmac : String → String → String) (now : Int)
    (payload : String) (sig : Option String) (ts : String) :
    (verifyWebhookSignature (some sec) hmac now payload sig (some ts)).valid = true ↔
      (sig = some (hmac sec (ts ++ "." ++ payload)) ∧
       ∀ n, jsParseInt ts = some n → (now - n).natAbs ≤ 5 * 60 * 1000) := by
  cases sig with
  | none =>
    simp [verifyWebhookSignature]
  | some s =>
    cases hp : jsParseInt ts with
    | none =>
      simp only [verifyWebhookSignature, hp]
      rw [if_neg (by simp)]
      by_cases heq : s = hmac sec (ts ++ "." ++ payload)
      · rw [if_neg (by simp [heq])]
        simp [heq, hp]
      · rw [if_pos heq]
        simp [heq, hp]
    | some n =>
      by_cases habs : (now - n).natAbs > 5 * 60 * 1000
      · simp only [verifyWebhookSignature, hp]
        rw [if_pos (by simpa using habs)]
        simp only [Option.some.injEq]
        constructor
        · intro h
          cases h
        · rintro ⟨-, hwin⟩
          exact absurd (hwin n rfl) (by omega)
      · simp only [verifyWebhookSignature, hp]
        rw [if_neg (by simpa using habs)]
        by_cases heq : s = hmac sec (ts ++ "." ++ payload)
        · rw [if_neg (by simp [heq])]
          simp only [Option.some.injEq]
          constructor
          · intro _
            refine ⟨heq, ?_⟩
            intro m hm
            cases hm
            omega
          · intro _
            trivial
        · rw [if_pos heq]
          simp only [Option.some.injEq]
          constructor
          · intro h
            cases h
          · rintro ⟨h, -⟩
            exact absurd h heq

/-- C3 (error_handling): with a secret configured, every inbound POST to
the CDC webhook whose signature header differs from the HMAC digest of
timestamp, dot, raw body — or whose timestamp parses to a value more
than 5 minutes from the current time — is answered 401 and schedules NO
processing job.  In the embedding every Mirror Record mutation and every
Event Log write of the webhook path happens inside the scheduled jobs
(`processCdcEvent` / `processCdcBatch`), so an empty job list means no
store mutation and no Event Log entry. -/
theorem cdc_webhook_rejects_unauthenticated
    (sec : String) (hmac : String → String → String) (now : Int)
    (rawBody : String) (signature : Option String) (tsStr : String)
    (parse : String → Except String ParsedBody)
    (hbad : signature ≠ some (hmac sec (tsStr ++ "." ++ rawBody)) ∨
      (∃ n, jsParseInt tsStr = some n ∧ (now - n).natAbs > 5 * 60 * 1000)) :
    (cdcWebhookHandler (some sec) hmac now rawBody signature (some tsStr) parse).1.status = 401 ∧
    (cdcWebhookHandler (some sec) hmac now rawBody signature (some tsStr) parse).2 = [] := by
  have hv : (verifyWebhookSignature (some sec) hmac now rawBody signature (some tsStr)).valid
      = false := by
    cases hval : (verifyWebhookSignature (some sec) hmac now rawBody signature
        (some tsStr)).valid with
    | false => rfl
    | true =>
      rcases (verify_valid_iff sec hmac now rawBody signature tsStr).mp hval with ⟨hsig, hwin⟩
      rcases hbad with hne | ⟨n, hpn, habs⟩
      · exact absurd hsig hne
      · exact absurd (hwin n hpn) (by omega)
  constructor
  · simp only [cdcWebhookHandler]
    rw [if_pos (by simp [hv])]
    rfl
  · simp only [cdcWebhookHandler]
    rw [if_pos (by simp [hv])]

/-- Witness for C3 at a concrete input: a wrong signature is answered
401 with nothing scheduled. -/
theorem cdc_webhook_rejects_unauthenticated_witness :
    (some "bad" ≠ some ((fun s m => s ++ "|" ++ m) "sec" ("123" ++ "." ++ "body"))) ∧
    (cdcWebhookHandler (some "sec") (fun s m => s ++ "|" ++ m) 200 "body" (some "bad")
        (some "123") (fun _ => .error "nojson")).1.status = 401 ∧
    (cdcWebhookHandler (some "sec") (fun s m => s ++ "|" ++ m) 200 "body" (some "bad")
        (some "123") (fun _ => .error "nojson")).2 = [] := by
  refine ⟨by decide, ?_⟩
  exact cdc_webhook_rejects_unauthenticated "sec" (fun s m => s ++ "|" ++ m) 200 "body"
    (some "bad") "123" (fun _ => .error "nojson") (Or.inl (by decide))

/-- The bulk sync record loop on an enabled table applies every row:
the synced counter grows by the row count, well-formedness is kept, rows
previously holding a key with change type "SYNC" keep one, and every
processed row ends with a mirror row carrying its id and change type
"SYNC". -/
lemma bulkSyncLoop_spec (cfg : List ObjectConfig) (mapRec : MapFn) (now : Nat)
    (tableName : String) (hen : isEnabledTable cfg tableName = true) :
    ∀ (records : List SfData) (db : Db) (synced : Nat), Db.WF db →
      (bulkSyncLoop cfg mapRec now tableName records db synced).1 = synced + records.length ∧
      Db.WF (bulkSyncLoop cfg mapRec now tableName records db synced).2 ∧
      (∀ s, (∃ r ∈ (db.getTable tableName).rows,
          r.doc.sfId = s ∧ r.doc.cdcChangeType = "SYNC") →
        ∃ r ∈ ((bulkSyncLoop cfg mapRec now tableName records db synced).2.getTable
            tableName).rows, r.doc.sfId = s ∧ r.doc.cdcChangeType = "SYNC") ∧
      (∀ rec ∈ records,
        ∃ r ∈ ((bulkSyncLoop cfg mapRec now tableName records db synced).2.getTable
            tableName).rows, r.doc.sfId = rec.Id ∧ r.doc.cdcChangeType = "SYNC") := by
  intro records
  induction records with
  | nil =>
    intro db synced hwf
    refine ⟨by simp [bulkSyncLoop], hwf, fun s h => h, ?_⟩
    intro rec hrec
    cases hrec
  | cons rec rest ih =>
    intro db synced hwf
    rcases upsert_ok_of_enabled mapRec now rec.Id "SYNC" none rec db hen with ⟨res, db', hok⟩
    simp only [bulkSyncLoop]
    rw [hok]
    obtain ⟨ihlen, ihwf, ihpres, ihall⟩ := ih db' (synced + 1) (wf_after_upsert hwf hok)
    refine ⟨?_, ihwf, ?_, ?_⟩
    · rw [ihlen, List.length_cons]
      omega
    · intro s hs
      exact ihpres s (exists_row_preserved (getTable_wf hwf tableName) hok s hs)
    · intro r hr
      rcases List.mem_cons.mp hr with rfl | hr'
      · apply ihpres
        rcases find?_after_upsert (getTable_wf hwf tableName) hok with
          ⟨row, hfind, _, hsf, hct, _, _, _⟩
        exact ⟨row, List.mem_of_find?_eq_some hfind, hsf, hct⟩
      · exact ihall r hr'

/-- C9 counterexample: `bulkSync` does not use the Credential Provider.
With a fresh stored OAuth token (on which `getCredentials` succeeds
without any network call) but no static environment credentials,
`bulkSync` fails with "Missing Salesforce credentials" and issues no
query request at all — the claim asserts the query is executed with the
Credential Provider token and succeeds whenever any usable credential
source exists. -/
theorem bulkSync_ignores_stored_token :
    getCredentials (some tokFresh) (fun _ _ => none) noEnv 1000 =
      .ok ({ accessToken := "storedAT", instanceUrl := "https://stored.example" },
           some tokFresh, false) ∧
    bulkSync sampleCfg mapRecordToDocument 1000 "Contact" none noEnv (fun q => q)
        (fun _ => FetchOutcome.ok []) emptyDb =
      ({ success := false, synced := 0, error := some "Missing Salesforce credentials" },
       emptyDb, none) := by
  exact ⟨rfl, rfl⟩

/-- C9 amended (functional_correctness): `bulkSync` reads the static
environment instance URL and access token directly (never the stored
OAuth token): with an enabled entity type it fails issuing no request
when either environment variable is unset or empty, and otherwise issues
the query with the environment access token as bearer; when the query
returns a record list, every returned row is applied via `upsertRecord`
with change type "SYNC" and the synced count equals the row count. -/
theorem bulkSync_env_token_spec :
    (∀ (cfg : List ObjectConfig) (mapRec : MapFn) (now : Nat) (objectType : String)
       (limit : Option Nat) (env : EnvCreds) (encode : String → String)
       (fetch : BulkReq → FetchOutcome) (db : Db) (oc : ObjectConfig),
       getObjectByApiName cfg objectType = some oc → oc.enabled = true →
       ¬ (jsTruthyStr env.instanceUrl = true ∧ jsTruthyStr env.accessToken = true) →
       bulkSync cfg mapRec now objectType limit env encode fetch db =
         ({ success := false, synced := 0, error := some "Missing Salesforce credentials" },
          db, none)) ∧
    (∀ (cfg : List ObjectConfig) (mapRec : MapFn) (now : Nat) (objectType : String)
       (limit : Option Nat) (env : EnvCreds) (encode : String → String)
       (records : List SfData) (db : Db) (oc : ObjectConfig),
       MapperNoSfId mapRec → Db.WF db →
       getObjectByApiName cfg objectType = some oc → oc.enabled = true →
       jsTruthyStr env.instanceUrl = true → jsTruthyStr env.accessToken = true →
       (bulkSync cfg mapRec now objectType limit env encode
          (fun _ => FetchOutcome.ok records) db).1.success = true ∧
       (bulkSync cfg mapRec now objectType limit env encode
          (fun _ => FetchOutcome.ok records) db).1.synced = records.length ∧
       (∃ url, (bulkSync cfg mapRec now objectType limit env encode
          (fun _ => FetchOutcome.ok records) db).2.2 =
            some { url := url, bearer := env.accessToken.getD "" }) ∧
       (∀ rec ∈ records,
         ∃ r ∈ (((bulkSync cfg mapRec now objectType limit env encode
             (fun _ => FetchOutcome.ok records) db).2.1).getTable oc.tableName).rows,
           r.doc.sfId = rec.Id ∧ r.doc.cdcChangeType = "SYNC")) := by
  constructor
  · intro cfg mapRec now objectType limit env encode fetch db oc hcfg hen henv
    simp only [bulkSync, hcfg]
    rw [if_neg (by simp [hen]), if_pos henv]
  · intro cfg mapRec now objectType limit env encode records db oc hmap hwf hcfg hen hiu hat
    have hentbl : isEnabledTable cfg oc.tableName = true :=
      enabledTable_of_config (List.mem_of_find?_eq_some hcfg) hen
    obtain ⟨hlen, hwf', hpres, hall⟩ :=
      bulkSyncLoop_spec cfg mapRec now oc.tableName hentbl records db 0 hwf
    simp only [bulkSync, hcfg]
    rw [if_neg (by simp [hen]), if_neg (by simp [hiu, hat])]
    refine ⟨rfl, by simpa using hlen, ⟨_, rfl⟩, ?_⟩
    intro rec hrec
    exact hall rec hrec

/-- Witness for the amended C9 at a concrete input: with environment
credentials set, a one-row query result is applied with change type
"SYNC" under the environment bearer token. -/
theorem bulkSync_env_token_spec_witness :
    MapperNoSfId emptyMapper ∧
    (bulkSync sampleCfg emptyMapper 2 "Contact" none
        { instanceUrl := some "https://env", accessToken := some "envAT" } (fun q => q)
        (fun _ => FetchOutcome.ok [sampleData "003Z"]) emptyDb).1.success = true ∧
    (bulkSync sampleCfg emptyMapper 2 "Contact" none
        { instanceUrl := some "https://env", accessToken := some "envAT" } (fun q => q)
        (fun _ => FetchOutcome.ok [sampleData "003Z"]) emptyDb).1.synced = 1 ∧
    (∃ url, (bulkSync sampleCfg emptyMapper 2 "Contact" none
        { instanceUrl := some "https://env", accessToken := some "envAT" } (fun q => q)
        (fun _ => FetchOutcome.ok [sampleData "003Z"]) emptyDb).2.2 =
      some { url := url, bearer := "envAT" }) ∧
    (∀ rec ∈ [sampleData "003Z"],
      ∃ r ∈ (((bulkSync sampleCfg emptyMapper 2 "Contact" none
          { instanceUrl := some "https://env", accessToken := some "envAT" } (fun q => q)
          (fun _ => FetchOutcome.ok [sampleData "003Z"]) emptyDb).2.1).getTable
            contactCfg.tableName).rows,
        r.doc.sfId = rec.Id ∧ r.doc.cdcChangeType = "SYNC") := by
  have hmap : MapperNoSfId emptyMapper := by
    intro oc data p hp
    simp [emptyMapper] at hp
  have hwf : Db.WF emptyDb := by
    intro p hp
    simp [emptyDb] at hp
  have h := bulkSync_env_token_spec.2 sampleCfg emptyMapper 2 "Contact" none
    { instanceUrl := some "https://env", accessToken := some "envAT" } (fun q => q)
    [sampleData "003Z"] emptyDb contactCfg hmap hwf rfl rfl (by decide) (by decide)
  exact ⟨hmap, h.1, h.2.1, h.2.2.1, h.2.2.2⟩

/-- The rows failing a predicate and the rows satisfying it partition a
list. -/
lemma filter_partition (l : List Row) (p : Row → Bool) :
    (l.filter (fun r => ¬ p r)).length + (l.filter p).length = l.length := by
  induction l with
  | nil => rfl
  | cons x xs ih =>
    by_cases hx : p x = true <;> simp [List.filter_cons, hx, ← ih] <;> omega

/-- C10 (functional_correctness): for every store state, every per-type
entry of `getSyncStats` satisfies `active + deleted = total` — the row
count, the count of rows with the deletion flag clear, and the count of
rows with it set always partition the mirror table exactly. -/
theorem getSyncStats_partition :
    ∀ (cfg : List ObjectConfig) (db : Db),
      ∀ p ∈ getSyncStats cfg db, p.2.active + p.2.deleted = p.2.total := by
  intro cfg db p hp
  rcases List.mem_map.mp hp with ⟨obj, hobj, rfl⟩
  exact filter_partition (db.getTable obj.tableName).rows (fun r => r.doc.isDeleted)

/-- Witness for C10 at a concrete input: after one Contact event the
stats entry reads total=1, active=1, deleted=0, and 1 + 0 = 1. -/
theorem getSyncStats_partition_witness :
    ("Contact", ({ total := 1, active := 1, deleted := 0 } : SyncStat)) ∈
      getSyncStats sampleCfg (processCdcEvent sampleCfg mapRecordToDocument 3
        (mkEvent "Contact" "003A") emptyDb).2 ∧
    (1 : Nat) + 0 = 1 := by
  have hmem : ("Contact", ({ total := 1, active := 1, deleted := 0 } : SyncStat)) ∈
      getSyncStats sampleCfg (processCdcEvent sampleCfg mapRecordToDocument 3
        (mkEvent "Contact" "003A") emptyDb).2 := by
    decide
  exact ⟨hmem, getSyncStats_partition sampleCfg _ _ hmem⟩
